import Mathlib

/-!
# Thrive microbe stage: agents, emitters, absorbers and the agent registry

A shallow embedding of `src/microbe_stage/agent.cpp`.  Global and heap state of
the C++ program (the two function-local statics of the registry, the entity
filters of the systems, the entity manager, the random number generator) is
passed explicitly.  Every C++ container is a list: a `std::vector` is the list
of its elements, a `std::unordered_map` the list of its key/value pairs with
first-match lookup, a `std::unordered_set` the list of its elements.
-/

set_option autoImplicit false

namespace Thrive

/-! ## Types declared in headers

The typedefs `AgentId`, `EntityId` and `Milliseconds` come from headers that
are not part of the sources at hand.  Following the spec, an `AgentId` is a
non-negative integer with `0` meaning "no agent type" and is embedded as a
`Nat`, so that converting `agentRegistry().size()` to an `AgentId` is the
identity; an `EntityId` is a `Nat`; `Milliseconds` is a signed duration that
may go negative and is embedded as an `Int`, as is the parameter
`int milliseconds` of the systems. -/

/-- Modelled from the spec: the constant `NULL_AGENT` of `agent.h`, the
`AgentId` meaning "no agent type". -/
def NULL_AGENT : Nat := 0

/-- The C++ exceptions thrown by `agent.cpp`, with their `what()` text. -/
inductive Exception where
  | invalid_argument (what : String)
  | out_of_range (what : String)
  deriving DecidableEq, Repr

/-- The result of running a C++ function that may throw or may leave the
defined behaviour of the language (an unchecked `operator[]` outside the
bounds of a vector). -/
inductive Outcome (α : Type) where
  | returned (value : α)
  | thrown (e : Exception)
  | undefinedBehaviour
  deriving DecidableEq, Repr

/-! ## Containers -/

namespace UnorderedMap

variable {κ ν : Type} [DecidableEq κ]

/-- The member `find`: the value stored under a key, if any. -/
def find? (k : κ) : List (κ × ν) → Option ν
  | [] => none
  | (k', v) :: rest => if k' = k then some v else find? k rest

/-- The member `count`: 1 when the key is present and 0 otherwise. -/
def count (m : List (κ × ν)) (k : κ) : Nat :=
  match find? k m with
  | some _ => 1
  | none => 0

/-- The member `emplace`: inserts the pair unless the key is already present. -/
def emplace (m : List (κ × ν)) (k : κ) (v : ν) : List (κ × ν) :=
  match find? k m with
  | some _ => m
  | none => m ++ [(k, v)]

/-- Replace the value stored under the first occurrence of a key. -/
def modify (k : κ) (f : ν → ν) : List (κ × ν) → List (κ × ν)
  | [] => []
  | (k', v) :: rest => if k' = k then (k', f v) :: rest else (k', v) :: modify k f rest

/-- The statement `m[k] = v`: `operator[]` inserts the key when it is missing,
then the value is assigned. -/
def assign (m : List (κ × ν)) (k : κ) (v : ν) : List (κ × ν) :=
  match find? k m with
  | some _ => modify k (fun _ => v) m
  | none => m ++ [(k, v)]

end UnorderedMap

namespace UnorderedSet

variable {κ : Type} [DecidableEq κ]

/-- The member `insert` of a `std::unordered_set`: no effect when the element
is already present. -/
def insert (s : List κ) (k : κ) : List κ :=
  if s.contains k then s else s ++ [k]

/-- The member `erase` of a `std::unordered_set`. -/
def erase (s : List κ) (k : κ) : List κ :=
  s.filter (fun x => !decide (x = k))

end UnorderedSet

/-- The unchecked `std::vector::operator[]` at a (possibly wrapped or negative)
index: `none` stands for an access outside the vector. -/
def vectorIndex {β : Type} (v : List β) (i : Int) : Option β :=
  if 0 ≤ i then v[i.toNat]? else none

/-! ## AgentRegistry -/

/-- The struct `AgentRegistryEntry`. -/
structure AgentRegistryEntry where
  internalName : String
  displayName : String
  deriving DecidableEq, Repr

/-- The two function-local statics behind `agentRegistry()` and
`agentRegistryMap()`. -/
structure RegistryState where
  agentRegistry : List AgentRegistryEntry
  agentRegistryMap : List (String × Nat)
  deriving DecidableEq, Repr

namespace AgentRegistry

/-- The registry at program start: both statics are empty. -/
def empty : RegistryState := ⟨[], []⟩

/-- The text of the exception thrown by `registerAgentType`. -/
def duplicateNameError : Exception :=
  .invalid_argument "Duplicate internalName not allowed."

/-- The text of the exception thrown by the two lookups by id. -/
def invalidIdError : Exception :=
  .out_of_range "Index of agent does not exist."

/-- The text of the exception thrown by `getAgentId`. -/
def unknownNameError : Exception :=
  .out_of_range "Internal name of agent does not exist."

/-- `AgentRegistry::registerAgentType`. -/
def registerAgentType (s : RegistryState) (internalName displayName : String) :
    Outcome Nat × RegistryState :=
  if UnorderedMap.count s.agentRegistryMap internalName = 0 then
    let entry : AgentRegistryEntry := ⟨internalName, displayName⟩
    let registry := s.agentRegistry ++ [entry]
    let map := UnorderedMap.emplace s.agentRegistryMap internalName registry.length
    (.returned registry.length, ⟨registry, map⟩)
  else
    (.thrown duplicateNameError, s)

/-- `AgentRegistry::getAgentDisplayName`. -/
def getAgentDisplayName (s : RegistryState) (id : Nat) : Outcome String :=
  if id > s.agentRegistry.length then
    .thrown invalidIdError
  else
    match vectorIndex s.agentRegistry ((id : Int) - 1) with
    | some entry => .returned entry.displayName
    | none => .undefinedBehaviour

/-- `AgentRegistry::getAgentInternalName`. -/
def getAgentInternalName (s : RegistryState) (id : Nat) : Outcome String :=
  if id > s.agentRegistry.length then
    .thrown invalidIdError
  else
    match vectorIndex s.agentRegistry ((id : Int) - 1) with
    | some entry => .returned entry.internalName
    | none => .undefinedBehaviour

/-- `AgentRegistry::getAgentId`: `at` throws when the key is missing and the
handler rethrows with its own text. -/
def getAgentId (s : RegistryState) (internalName : String) : Outcome Nat :=
  match UnorderedMap.find? internalName s.agentRegistryMap with
  | some agentId => .returned agentId
  | none => .thrown unknownNameError

/-- A sequence of `registerAgentType` calls, one per `(internalName,
displayName)` pair, a thrown exception being caught by the caller: the
outcomes in call order and the final state. -/
def registerAll (s : RegistryState) :
    List (String × String) → List (Outcome Nat) × RegistryState
  | [] => ([], s)
  | (n, d) :: rest =>
    let r := registerAgentType s n d
    let rs := registerAll r.2 rest
    (r.1 :: rs.1, rs.2)

/-- The successful registrations of a call sequence: the name `name` received
the id `id` at some call. -/
def registeredAs (s : RegistryState) (calls : List (String × String)) (name : String)
    (id : Nat) : Prop :=
  (name, Outcome.returned id) ∈ (calls.map Prod.fst).zip (registerAll s calls).1

/-- The registry after "oxygen" and "glucose" were registered, in that order,
on the empty registry. -/
def sampleRegistry : RegistryState :=
  (registerAll empty [("oxygen", "Oxygen"), ("glucose", "Glucose")]).2

instance (s : RegistryState) (calls : List (String × String)) (name : String) (id : Nat) :
    Decidable (registeredAs s calls name id) := by
  unfold registeredAs
  infer_instance

end AgentRegistry

/-! ## Components -/

/-- An `Ogre::Vector3` over the scalar type `α`. -/
structure Vector3 (α : Type) where
  x : α
  y : α
  z : α
  deriving DecidableEq, Repr

/-- `Ogre::Vector3::operator+`. -/
def Vector3.add {α : Type} [Add α] (a b : Vector3 α) : Vector3 α :=
  ⟨a.x + b.x, a.y + b.y, a.z + b.z⟩

/-- Modelled from the spec: `Ogre::Vector3::operator*` by a scalar (the Ogre
library is not part of the sources at hand), each coordinate multiplied by the
scalar. -/
def Vector3.mulScalar {α : Type} [Mul α] (a : Vector3 α) (s : α) : Vector3 α :=
  ⟨a.x * s, a.y * s, a.z * s⟩

/-- Modelled from the spec: `Ogre::Vector3::operator/` by a scalar (the Ogre
library is not part of the sources at hand), each coordinate divided by the
scalar. -/
def Vector3.divScalar {α : Type} [Div α] (a : Vector3 α) (s : α) : Vector3 α :=
  ⟨a.x / s, a.y / s, a.z / s⟩

/-- The arithmetic of the C++ type `float` (`Ogre::Real`), kept abstract: the
literal zero, addition and multiplication, the conversions from and to `int`,
and `Ogre::Math::Sin` / `Ogre::Math::Cos` of an angle given in degrees.
Nothing is assumed about these operations, so what is proved holds for IEEE
arithmetic as for any other. -/
class FloatArith (α : Type) extends Zero α, Add α, Mul α where
  ofInt : Int → α
  toInt : α → Int
  sinDegrees : α → α
  cosDegrees : α → α

/-- The data members of `AgentComponent`. -/
structure AgentComponent (α : Type) where
  m_agentId : Nat
  m_potency : α
  m_timeToLive : Int
  m_velocity : Vector3 α
  deriving DecidableEq, Repr

/-- The data members of `AgentEmitterComponent`; the two angles are held in
degrees. -/
structure AgentEmitterComponent (α : Type) where
  m_agentId : Nat
  m_emissionRadius : α
  m_maxInitialSpeed : α
  m_minInitialSpeed : α
  m_minEmissionAngle : α
  m_maxEmissionAngle : α
  m_meshName : String
  m_particlesPerEmission : Nat
  m_particleLifetime : Int
  m_particleScale : Vector3 α
  m_potencyPerParticle : α
  deriving DecidableEq, Repr

/-- The data members of `TimedAgentEmitterComponent`. -/
structure TimedAgentEmitterComponent where
  m_emitInterval : Int
  m_timeSinceLastEmission : Int
  deriving DecidableEq, Repr

/-- The data members of `AgentAbsorberComponent`: the ledger
`m_absorbedAgents` (an unordered map) and the allow-list `m_canAbsorbAgent`
(an unordered set). -/
structure AgentAbsorberComponent (α : Type) where
  m_absorbedAgents : List (Nat × α)
  m_canAbsorbAgent : List Nat
  deriving DecidableEq, Repr

namespace AgentAbsorberComponent

variable {α : Type}

/-- `AgentAbsorberComponent::absorbedAgentAmount`. -/
def absorbedAgentAmount [Zero α] (c : AgentAbsorberComponent α) (id : Nat) : α :=
  match UnorderedMap.find? id c.m_absorbedAgents with
  | some amount => amount
  | none => 0

/-- `AgentAbsorberComponent::canAbsorbAgent`. -/
def canAbsorbAgent (c : AgentAbsorberComponent α) (id : Nat) : Bool :=
  c.m_canAbsorbAgent.contains id

/-- The statement `m_absorbedAgents[id] += potency`: `operator[]` first
inserts a value-initialised `0.0f` when the key is missing. -/
def addAbsorbed [Zero α] [Add α] (c : AgentAbsorberComponent α) (id : Nat)
    (potency : α) : AgentAbsorberComponent α :=
  match UnorderedMap.find? id c.m_absorbedAgents with
  | some _ =>
    { c with m_absorbedAgents := UnorderedMap.modify id (fun v => v + potency) c.m_absorbedAgents }
  | none =>
    { c with m_absorbedAgents := c.m_absorbedAgents ++ [(id, 0 + potency)] }

/-- The component as its constructor leaves it: an empty ledger and an empty
allow-list. -/
def fresh : AgentAbsorberComponent α := ⟨[], []⟩

/-- `AgentAbsorberComponent::setAbsorbedAgentAmount`. -/
def setAbsorbedAgentAmount (c : AgentAbsorberComponent α) (id : Nat) (amount : α) :
    AgentAbsorberComponent α :=
  { c with m_absorbedAgents := UnorderedMap.assign c.m_absorbedAgents id amount }

/-- `AgentAbsorberComponent::setCanAbsorbAgent`. -/
def setCanAbsorbAgent (c : AgentAbsorberComponent α) (id : Nat) (canAbsorb : Bool) :
    AgentAbsorberComponent α :=
  if canAbsorb then
    { c with m_canAbsorbAgent := UnorderedSet.insert c.m_canAbsorbAgent id }
  else
    { c with m_canAbsorbAgent := UnorderedSet.erase c.m_canAbsorbAgent id }

/-- `AgentAbsorberComponent::storage`: the `StorageList` stored under
"agents", each container given as its "agentId" and its "amount". -/
def storage [Zero α] (c : AgentAbsorberComponent α) : List (Nat × α) :=
  c.m_canAbsorbAgent.map fun agentId => (agentId, c.absorbedAgentAmount agentId)

/-- `AgentAbsorberComponent::load`, run on a component `c` with the
`StorageList` found under "agents". -/
def load (c : AgentAbsorberComponent α) (agents : List (Nat × α)) :
    AgentAbsorberComponent α :=
  agents.foldl (fun c container =>
    { m_absorbedAgents := UnorderedMap.assign c.m_absorbedAgents container.1 container.2
      m_canAbsorbAgent := UnorderedSet.insert c.m_canAbsorbAgent container.1 }) c

end AgentAbsorberComponent

/-! ## The entity manager and the random number generator -/

/-- The components attached to a particle by `emitAgent`, each holding the
members that `emitAgent` writes into the freshly constructed component. -/
inductive Component (α : Type) where
  | sceneNode (scale : Vector3 α) (meshName : String)
  | agent (c : AgentComponent α)
  | rigidBody (hasContactResponse kinematic : Bool) (position : Vector3 α)
  deriving DecidableEq, Repr

/-- Modelled from the spec: the engine state reached through `Game::instance()`
(the engine is not part of the sources at hand): the state of the random
number generator, the next identifier handed out by
`EntityManager::generateNewId`, and the `addComponent` calls received by the
entity manager, oldest first. -/
structure GameState (ρ α : Type) where
  rng : ρ
  nextEntityId : Nat
  added : List (Nat × Component α)

/-- Modelled from the spec: the random source `rng().getDouble(low, high)`, a
function of the generator state giving the drawn value and the next state. -/
structure RandomSource (ρ α : Type) where
  getDouble : ρ → α → α → α × ρ

namespace AgentEmitterComponent

variable {ρ α : Type} [FloatArith α]

/-- The local `emissionAngle` of `emitAgent`: the first draw, between the two
emission angles. -/
def emissionAngle (random : RandomSource ρ α) (e : AgentEmitterComponent α)
    (g : GameState ρ α) : α :=
  (random.getDouble g.rng e.m_minEmissionAngle e.m_maxEmissionAngle).1

/-- The local `emissionSpeed` of `emitAgent`: the second draw, between the two
initial speeds. -/
def emissionSpeed (random : RandomSource ρ α) (e : AgentEmitterComponent α)
    (g : GameState ρ α) : α :=
  (random.getDouble (random.getDouble g.rng e.m_minEmissionAngle e.m_maxEmissionAngle).2
    e.m_minInitialSpeed e.m_maxInitialSpeed).1

/-- `AgentEmitterComponent::emitAgent(AgentId, int, bool, Ogre::Vector3)`. -/
def emitAgent (random : RandomSource ρ α) (e : AgentEmitterComponent α)
    (agentId : Nat) (amount : Int) (useAbsolutePosition : Bool)
    (emissionPosition : Vector3 α) (g : GameState ρ α) : GameState ρ α :=
  let angleDraw := random.getDouble g.rng e.m_minEmissionAngle e.m_maxEmissionAngle
  let emissionAngle := angleDraw.1
  let speedDraw := random.getDouble angleDraw.2 e.m_minInitialSpeed e.m_maxInitialSpeed
  let emissionSpeed := speedDraw.1
  let emissionVelocity : Vector3 α :=
    ⟨emissionSpeed * FloatArith.sinDegrees emissionAngle,
     emissionSpeed * FloatArith.cosDegrees emissionAngle, 0⟩
  let emissionOffset : Vector3 α :=
    if useAbsolutePosition then ⟨0, 0, 0⟩
    else ⟨e.m_emissionRadius * FloatArith.sinDegrees emissionAngle,
          e.m_emissionRadius * FloatArith.cosDegrees emissionAngle, 0⟩
  let agentEntityId := g.nextEntityId
  let agentComponent : AgentComponent α :=
    { m_timeToLive := e.m_particleLifetime
      m_velocity := emissionVelocity
      m_agentId := agentId
      m_potency := FloatArith.ofInt amount }
  { rng := speedDraw.2
    nextEntityId := g.nextEntityId + 1
    added := g.added ++
      [(agentEntityId, Component.sceneNode e.m_particleScale e.m_meshName),
       (agentEntityId, Component.agent agentComponent),
       (agentEntityId, Component.rigidBody false true
          (Vector3.add emissionPosition emissionOffset))] }

/-- `AgentEmitterComponent::emitAgent(Ogre::Vector3)`: the float
`m_potencyPerParticle` is passed for the `int` parameter `amount`. -/
def emitAgentDefault (random : RandomSource ρ α) (e : AgentEmitterComponent α)
    (emittorPosition : Vector3 α) (g : GameState ρ α) : GameState ρ α :=
  emitAgent random e e.m_agentId (FloatArith.toInt e.m_potencyPerParticle) false
    emittorPosition g

end AgentEmitterComponent

/-! ## Concrete inputs

Integer-valued numbers, a random source that always draws the lower bound, an
emitter and an engine state, on which the systems are evaluated. -/

/-- The integers as scalars: the sums and products of small integral floats
are exact, and so are the sine and the cosine of the multiples of 90 degrees,
the only angles used with this instance (any other angle gets 0). -/
instance intArith : FloatArith Int where
  ofInt := id
  toInt := id
  sinDegrees := fun a => if a % 360 = 90 then 1 else if a % 360 = 270 then -1 else 0
  cosDegrees := fun a => if a % 360 = 0 then 1 else if a % 360 = 180 then -1 else 0

/-- The rationals as scalars, exact where floats are on the values used with
this instance (small integers and halves): the conversion to `int` drops the
fractional part, as the C++ conversion does, and the sine and the cosine are
given at the multiples of 90 degrees (any other angle gets 0). -/
instance ratArith : FloatArith Rat where
  ofInt := fun n => (n : Rat)
  toInt := fun q => Int.tdiv q.num q.den
  sinDegrees := fun a => if a = 90 then 1 else if a = 270 then -1 else 0
  cosDegrees := fun a => if a = 0 then 1 else if a = 180 then -1 else 0

/-- The non-negative integers held by an IEEE 754 binary32 number, the format
of the C++ type `float`, to be used with the addition of that format. -/
structure Binary32 where
  val : Nat
  deriving DecidableEq, Repr

namespace Binary32

/-- The distance between neighbouring binary32 numbers at `n`: 1 below
`2 ^ 24`, and doubling each time `n` doubles from there (the significand has
24 bits).  The first argument bounds the number of doublings. -/
def spacing : Nat → Nat → Nat
  | 0, _ => 1
  | fuel + 1, n => if n < 16777216 then 1 else 2 * spacing fuel (n / 2)

/-- Rounding of a natural number to the nearest binary32 number, a tie going
to the neighbour with an even significand (the default rounding mode).  The
spacing of finite binary32 numbers doubles at most 104 times. -/
def round (n : Nat) : Nat :=
  let s := spacing 104 n
  let q := n / s
  let r := n % s
  if 2 * r < s then q * s
  else if s < 2 * r then (q + 1) * s
  else if q % 2 = 0 then q * s
  else (q + 1) * s

instance : Zero Binary32 := ⟨⟨0⟩⟩

/-- The addition of binary32: the exact sum, rounded.  Sums beyond the largest
finite binary32 number, which the format turns into infinity, are outside this
model. -/
instance : Add Binary32 := ⟨fun a b => ⟨round (a.val + b.val)⟩⟩

end Binary32

/-- A random source whose every draw is the lower bound of the range. -/
def lowestDraw : RandomSource Unit Int := ⟨fun state low _ => (low, state)⟩

/-- An emitter of agent type 1 that shoots two particles per burst straight
along the y axis with speed 2. -/
def sampleEmitter : AgentEmitterComponent Int :=
  { m_agentId := 1
    m_emissionRadius := 1
    m_maxInitialSpeed := 2
    m_minInitialSpeed := 2
    m_minEmissionAngle := 0
    m_maxEmissionAngle := 0
    m_meshName := "molecule.mesh"
    m_particlesPerEmission := 2
    m_particleLifetime := 5000
    m_particleScale := ⟨1, 1, 1⟩
    m_potencyPerParticle := 3 }

/-- An emitter of agent type 1 whose `m_potencyPerParticle` is one half. -/
def halfPotencyEmitter : AgentEmitterComponent Rat :=
  { m_agentId := 1
    m_emissionRadius := 1
    m_maxInitialSpeed := 2
    m_minInitialSpeed := 2
    m_minEmissionAngle := 0
    m_maxEmissionAngle := 0
    m_meshName := "molecule.mesh"
    m_particlesPerEmission := 2
    m_particleLifetime := 5000
    m_particleScale := ⟨1, 1, 1⟩
    m_potencyPerParticle := 1 / 2 }

/-- An engine state in which no component was added yet and the next entity
id is 10. -/
def sampleGame : GameState Unit Int := ⟨(), 10, []⟩

/-- An agent of type 3 with 100 ms left to live, at rest. -/
def sampleAgent (potency : Int) : AgentComponent Int :=
  { m_agentId := 3, m_potency := potency, m_timeToLive := 100, m_velocity := ⟨0, 0, 0⟩ }

/-! ## AgentLifetimeSystem -/

namespace AgentLifetimeSystem

variable {α : Type}

/-- `AgentLifetimeSystem::update`: the agent components after the pass, and
the entities handed to `removeEntity`, in iteration order. -/
def update (milliseconds : Int) :
    List (Nat × AgentComponent α) → List (Nat × AgentComponent α) × List Nat
  | [] => ([], [])
  | (entity, agentComponent) :: rest =>
    let aged : AgentComponent α :=
      { agentComponent with m_timeToLive := agentComponent.m_timeToLive - milliseconds }
    let others := update milliseconds rest
    if aged.m_timeToLive ≤ 0 then
      ((entity, aged) :: others.1, entity :: others.2)
    else
      ((entity, aged) :: others.1, others.2)

end AgentLifetimeSystem

/-! ## AgentMovementSystem -/

namespace AgentMovementSystem

variable {α : Type}

/-- `AgentMovementSystem::update` over the entities of the filter, each with
its agent component and `m_dynamicProperties.position` of its rigid body. -/
def update [FloatArith α] [Div α] (milliseconds : Int)
    (entities : List (Nat × AgentComponent α × Vector3 α)) :
    List (Nat × AgentComponent α × Vector3 α) :=
  entities.map fun value =>
    let delta := Vector3.divScalar
      (Vector3.mulScalar value.2.1.m_velocity (FloatArith.ofInt milliseconds))
      (FloatArith.ofInt 1000)
    (value.1, value.2.1, Vector3.add value.2.2 delta)

end AgentMovementSystem

/-! ## AgentEmitterSystem -/

namespace AgentEmitterSystem

variable {ρ α : Type} [FloatArith α]

/-- The inner `for` loop of `update`: `count` calls of the one-argument
`emitAgent`. -/
def burst (random : RandomSource ρ α) (e : AgentEmitterComponent α)
    (position : Vector3 α) : Nat → GameState ρ α → GameState ρ α
  | 0, g => g
  | count + 1, g =>
    burst random e position count (AgentEmitterComponent.emitAgentDefault random e position g)

/-- The `while` loop of `update`. -/
def emitWhile (random : RandomSource ρ α) (e : AgentEmitterComponent α)
    (position : Vector3 α) (t : TimedAgentEmitterComponent) (g : GameState ρ α) :
    TimedAgentEmitterComponent × GameState ρ α :=
  if t.m_emitInterval > 0 ∧ t.m_timeSinceLastEmission ≥ t.m_emitInterval then
    emitWhile random e position
      { t with m_timeSinceLastEmission := t.m_timeSinceLastEmission - t.m_emitInterval }
      (burst random e position e.m_particlesPerEmission g)
  else
    (t, g)
termination_by t.m_timeSinceLastEmission.toNat
decreasing_by
  simp_wf
  omega

/-- The body of the outer loop of `update` for one entity of the filter; the
position is `m_transform.position` of its scene node. -/
def updateEntity (random : RandomSource ρ α) (milliseconds : Int)
    (e : AgentEmitterComponent α) (position : Vector3 α)
    (t : TimedAgentEmitterComponent) (g : GameState ρ α) :
    TimedAgentEmitterComponent × GameState ρ α :=
  emitWhile random e position
    { t with m_timeSinceLastEmission := t.m_timeSinceLastEmission + milliseconds } g

/-- `AgentEmitterSystem::update` over the entities of the filter, each with
its emitter, its timed emitter and the position of its scene node. -/
def update (random : RandomSource ρ α) (milliseconds : Int) :
    List (Nat × AgentEmitterComponent α × TimedAgentEmitterComponent × Vector3 α) →
    GameState ρ α →
    List (Nat × AgentEmitterComponent α × TimedAgentEmitterComponent × Vector3 α) ×
      GameState ρ α
  | [], g => ([], g)
  | (entity, e, t, position) :: rest, g =>
    let r := updateEntity random milliseconds e position t g
    let others := update random milliseconds rest r.2
    ((entity, e, r.1, position) :: others.1, others.2)

end AgentEmitterSystem

/-! ## AgentAbsorberSystem -/

/-- The two entity filters of `AgentAbsorberSystem::Implementation`. -/
structure AbsorberWorld (α : Type) where
  m_absorbers : List (Nat × AgentAbsorberComponent α)
  m_agents : List (Nat × AgentComponent α)
  deriving DecidableEq, Repr

/-- A world with one absorber, entity 1, that allows type 3 and still holds 99
of it from the tick before, and two agents of type 3, entities 10 and 11, with
potencies 5 and 7. -/
def sampleWorld : AbsorberWorld Int :=
  { m_absorbers := [(1, ⟨[(3, 99)], [3]⟩)]
    m_agents := [(10, sampleAgent 5), (11, sampleAgent 7)] }

/-- A world with two absorbers, entities 1 and 2, that both allow type 3, and
one agent of type 3, entity 10, with potency 5. -/
def twoAbsorberWorld : AbsorberWorld Int :=
  { m_absorbers := [(1, ⟨[], [3]⟩), (2, ⟨[], [3]⟩)]
    m_agents := [(10, sampleAgent 5)] }

/-- A world in which the entities 1 and 2 each carry an agent of type 3 and an
absorber that allows type 3, with potencies 5 and 7. -/
def dualRoleWorld : AbsorberWorld Int :=
  { m_absorbers := [(1, ⟨[], [3]⟩), (2, ⟨[], [3]⟩)]
    m_agents := [(1, sampleAgent 5), (2, sampleAgent 7)] }

/-- A world with binary32 scalars: one absorber, entity 1, that allows type 3,
and three agents of type 3, entities 10, 11 and 12, with potencies `2 ^ 24`, 1
and 1 and 100 ms left to live. -/
def roundingWorld : AbsorberWorld Binary32 :=
  { m_absorbers := [(1, ⟨[], [3]⟩)]
    m_agents :=
      [(10, ⟨3, ⟨16777216⟩, 100, ⟨⟨0⟩, ⟨0⟩, ⟨0⟩⟩⟩),
       (11, ⟨3, ⟨1⟩, 100, ⟨⟨0⟩, ⟨0⟩, ⟨0⟩⟩⟩),
       (12, ⟨3, ⟨1⟩, 100, ⟨⟨0⟩, ⟨0⟩, ⟨0⟩⟩⟩)] }

namespace AgentAbsorberSystem

variable {α : Type}

/-- `EntityFilter::containsEntity`. -/
def containsEntity {β : Type} (entities : List (Nat × β)) (entity : Nat) : Bool :=
  (UnorderedMap.find? entity entities).isSome

/-- The first loop of `update`: every absorber's ledger is cleared. -/
def clearAbsorbed (absorbers : List (Nat × AgentAbsorberComponent α)) :
    List (Nat × AgentAbsorberComponent α) :=
  absorbers.map fun entry => (entry.1, { entry.2 with m_absorbedAgents := [] })

/-- The two branches that pick the agent and the absorber of a manifold: the
entity whose agent component and the entity whose absorber component are
taken, or `none` when both pointers stay null. -/
def resolve (w : AbsorberWorld α) (entityA entityB : Nat) :
    Option (Nat × Nat) :=
  if containsEntity w.m_agents entityA ∧ containsEntity w.m_absorbers entityB then
    some (entityA, entityB)
  else if containsEntity w.m_absorbers entityA ∧ containsEntity w.m_agents entityB then
    some (entityB, entityA)
  else
    none

/-- The body of the manifold loop of `update` for the manifold whose bodies
belong to `entityA` and `entityB`. -/
def processManifold [Zero α] [Add α] (w : AbsorberWorld α)
    (manifold : Nat × Nat) : AbsorberWorld α :=
  match resolve w manifold.1 manifold.2 with
  | none => w
  | some (agentEntity, absorberEntity) =>
    match UnorderedMap.find? agentEntity w.m_agents,
          UnorderedMap.find? absorberEntity w.m_absorbers with
    | some agent, some absorber =>
      if absorber.canAbsorbAgent agent.m_agentId ∧ agent.m_timeToLive > 0 then
        { m_absorbers := UnorderedMap.modify absorberEntity
            (fun a => a.addAbsorbed agent.m_agentId agent.m_potency) w.m_absorbers
          m_agents := UnorderedMap.modify agentEntity
            (fun a => { a with m_timeToLive := 0 }) w.m_agents }
      else
        w
    | _, _ => w

/-- The condition of the `if` that guards the body of the manifold loop:
both pointers are set, the absorber allows the agent's type and the agent's
`m_timeToLive` is positive. -/
def absorbs (w : AbsorberWorld α) (manifold : Nat × Nat) : Bool :=
  match resolve w manifold.1 manifold.2 with
  | none => false
  | some (agentEntity, absorberEntity) =>
    match UnorderedMap.find? agentEntity w.m_agents,
          UnorderedMap.find? absorberEntity w.m_absorbers with
    | some agent, some absorber =>
      absorber.canAbsorbAgent agent.m_agentId && decide (agent.m_timeToLive > 0)
    | _, _ => false

/-- `AgentAbsorberSystem::update`; `manifolds` lists, in index order, the
entities of the two bodies of each contact manifold of the dispatcher. -/
def update [Zero α] [Add α] (w : AbsorberWorld α)
    (manifolds : List (Nat × Nat)) : AbsorberWorld α :=
  manifolds.foldl processManifold { w with m_absorbers := clearAbsorbed w.m_absorbers }

/-- What the body of the manifold loop credits when its guard passes: the
absorber entity whose ledger is written, the agent entity that is set to 0,
and the key and the summand of `m_absorbedAgents[m_agentId] += m_potency`. -/
def credit (w : AbsorberWorld α) (manifold : Nat × Nat) : Option (Nat × Nat × Nat × α) :=
  match resolve w manifold.1 manifold.2 with
  | none => none
  | some (agentEntity, absorberEntity) =>
    match UnorderedMap.find? agentEntity w.m_agents,
          UnorderedMap.find? absorberEntity w.m_absorbers with
    | some agent, some absorber =>
      if absorber.canAbsorbAgent agent.m_agentId ∧ agent.m_timeToLive > 0 then
        some (absorberEntity, agentEntity, agent.m_agentId, agent.m_potency)
      else
        none
    | _, _ => none

/-- The credits made by the manifold loop run from the world `w`, in
processing order. -/
def credits [Zero α] [Add α] (w : AbsorberWorld α) :
    List (Nat × Nat) → List (Nat × Nat × Nat × α)
  | [] => []
  | manifold :: rest =>
    match credit w manifold with
    | some made => made :: credits (processManifold w manifold) rest
    | none => credits (processManifold w manifold) rest

end AgentAbsorberSystem

/-! ## Lemmas on the containers -/

namespace UnorderedMap

variable {κ ν : Type} [DecidableEq κ]

theorem find?_eq_none_iff (k : κ) (m : List (κ × ν)) :
    find? k m = none ↔ k ∉ m.map Prod.fst := by
  induction m with
  | nil => simp [find?]
  | cons p rest ih =>
    obtain ⟨k', v⟩ := p
    by_cases hk : k' = k
    · simp [find?, hk]
    · have hk' : ¬ k = k' := fun h => hk h.symm
      simp [find?, hk, hk', ih]

theorem find?_append (k : κ) (m m' : List (κ × ν)) :
    find? k (m ++ m') = match find? k m with
      | some v => some v
      | none => find? k m' := by
  induction m with
  | nil => simp [find?]
  | cons p rest ih =>
    obtain ⟨k', v⟩ := p
    by_cases hk : k' = k
    · simp [find?, hk]
    · simp [find?, hk, ih]

theorem count_eq_zero_iff (m : List (κ × ν)) (k : κ) :
    count m k = 0 ↔ find? k m = none := by
  unfold count
  cases find? k m <;> simp

theorem emplace_of_find?_none {m : List (κ × ν)} {k : κ} (v : ν) (h : find? k m = none) :
    emplace m k v = m ++ [(k, v)] := by
  simp [emplace, h]

theorem find?_modify (k k' : κ) (f : ν → ν) (m : List (κ × ν)) :
    find? k' (modify k f m) = if k' = k then (find? k' m).map f else find? k' m := by
  induction m with
  | nil => simp [modify, find?]
  | cons p rest ih =>
    obtain ⟨k₀, v⟩ := p
    by_cases h0 : k₀ = k
    · subst h0
      by_cases h1 : k₀ = k'
      · subst h1
        simp [modify, find?]
      · have h1' : ¬ k' = k₀ := fun h => h1 h.symm
        simp [modify, find?, h1, h1']
    · by_cases h1 : k₀ = k'
      · subst h1
        simp [modify, find?, h0]
      · simp [modify, find?, h0, h1, ih]

end UnorderedMap

namespace AgentRegistry

theorem registerAgentType_of_fresh (s : RegistryState) (n d : String)
    (h : UnorderedMap.find? n s.agentRegistryMap = none) :
    registerAgentType s n d =
      (.returned (s.agentRegistry.length + 1),
        ⟨s.agentRegistry ++ [⟨n, d⟩],
         s.agentRegistryMap ++ [(n, s.agentRegistry.length + 1)]⟩) := by
  simp [registerAgentType, UnorderedMap.count_eq_zero_iff, h,
    UnorderedMap.emplace_of_find?_none]

theorem registerAgentType_of_present (s : RegistryState) (n d : String) (v : Nat)
    (h : UnorderedMap.find? n s.agentRegistryMap = some v) :
    registerAgentType s n d = (.thrown duplicateNameError, s) := by
  simp [registerAgentType, UnorderedMap.count, h]

/-- A registration never removes or rebinds a name of the map, and only
appends to the entry sequence. -/
theorem registerAgentType_monotone (s : RegistryState) (n d : String) :
    (∀ k v, UnorderedMap.find? k s.agentRegistryMap = some v →
        UnorderedMap.find? k (registerAgentType s n d).2.agentRegistryMap = some v) ∧
    (∃ extra, (registerAgentType s n d).2.agentRegistry = s.agentRegistry ++ extra) := by
  cases h : UnorderedMap.find? n s.agentRegistryMap with
  | none =>
    rw [registerAgentType_of_fresh s n d h]
    refine ⟨?_, ⟨_, rfl⟩⟩
    intro k v hk
    simp [UnorderedMap.find?_append, hk]
  | some v =>
    rw [registerAgentType_of_present s n d v h]
    exact ⟨fun _ _ hk => hk, ⟨[], by simp⟩⟩

theorem registerAll_monotone (calls : List (String × String)) (s : RegistryState) :
    (∀ k v, UnorderedMap.find? k s.agentRegistryMap = some v →
        UnorderedMap.find? k (registerAll s calls).2.agentRegistryMap = some v) ∧
    (∃ extra, (registerAll s calls).2.agentRegistry = s.agentRegistry ++ extra) := by
  induction calls generalizing s with
  | nil => exact ⟨fun _ _ hk => hk, ⟨[], by simp [registerAll]⟩⟩
  | cons c rest ih =>
    obtain ⟨n, d⟩ := c
    obtain ⟨h1, e1, he1⟩ := registerAgentType_monotone s n d
    obtain ⟨h2, e2, he2⟩ := ih (registerAgentType s n d).2
    refine ⟨fun k v hk => ?_, ⟨e1 ++ e2, ?_⟩⟩
    · simpa [registerAll] using h2 k v (h1 k v hk)
    · simp [registerAll, he2, he1]

/-- The names bound by the map after a registration. -/
theorem registerAgentType_find?_none_iff (s : RegistryState) (n d k : String) :
    UnorderedMap.find? k (registerAgentType s n d).2.agentRegistryMap = none ↔
      UnorderedMap.find? k s.agentRegistryMap = none ∧ k ≠ n := by
  cases h : UnorderedMap.find? n s.agentRegistryMap with
  | none =>
    rw [registerAgentType_of_fresh s n d h]
    cases hk : UnorderedMap.find? k s.agentRegistryMap with
    | none =>
      by_cases hkn : n = k
      · simp [UnorderedMap.find?_append, hk, UnorderedMap.find?, hkn]
      · have hkn' : ¬ k = n := fun h => hkn h.symm
        simp [UnorderedMap.find?_append, hk, UnorderedMap.find?, hkn, hkn']
    | some v => simp [UnorderedMap.find?_append, hk]
  | some v =>
    rw [registerAgentType_of_present s n d v h]
    constructor
    · intro hk
      refine ⟨hk, ?_⟩
      rintro rfl
      simp [hk] at h
    · exact fun hk => hk.1

theorem registerAll_find?_none_iff (calls : List (String × String)) (s : RegistryState)
    (k : String) :
    UnorderedMap.find? k (registerAll s calls).2.agentRegistryMap = none ↔
      UnorderedMap.find? k s.agentRegistryMap = none ∧ k ∉ calls.map Prod.fst := by
  induction calls generalizing s with
  | nil => simp [registerAll]
  | cons c rest ih =>
    obtain ⟨n, d⟩ := c
    simp only [registerAll, ih, registerAgentType_find?_none_iff, List.map_cons,
      List.mem_cons, not_or]
    tauto

/-- Registering names that are pairwise distinct and not yet in the map hands
out the ids that follow the current size of the entry sequence. -/
theorem registerAll_fresh (calls : List (String × String)) (s : RegistryState)
    (hfresh : ∀ n ∈ calls.map Prod.fst, UnorderedMap.find? n s.agentRegistryMap = none)
    (hnodup : (calls.map Prod.fst).Nodup) :
    (registerAll s calls).1 =
      (List.range' (s.agentRegistry.length + 1) calls.length).map Outcome.returned := by
  induction calls generalizing s with
  | nil => simp [registerAll]
  | cons c rest ih =>
    obtain ⟨n, d⟩ := c
    have hn : UnorderedMap.find? n s.agentRegistryMap = none := hfresh n (by simp)
    simp only [List.map_cons, List.nodup_cons] at hnodup
    have hrest := ih (registerAgentType s n d).2 (by
      intro k hk
      rw [registerAgentType_find?_none_iff]
      refine ⟨hfresh k (by simp [hk]), ?_⟩
      rintro rfl
      exact hnodup.1 hk) hnodup.2
    simp only [registerAll, hrest]
    rw [registerAgentType_of_fresh s n d hn]
    simp [List.range'_succ]

/-- C1: for every registry state with `count` entries and every internal name
that is not yet a key of the name map, `registerAgentType` returns
`count + 1` and appends exactly one entry (and one name binding); hence,
starting from the empty registry, `k` registrations of pairwise distinct names
return the ids `1, 2, ..., k` in registration order. -/
theorem registerAgentType_sequential_ids :
    (∀ (s : RegistryState) (n d : String), n ∉ s.agentRegistryMap.map Prod.fst →
      registerAgentType s n d =
        (.returned (s.agentRegistry.length + 1),
          ⟨s.agentRegistry ++ [⟨n, d⟩],
           s.agentRegistryMap ++ [(n, s.agentRegistry.length + 1)]⟩)) ∧
    (∀ calls : List (String × String), (calls.map Prod.fst).Nodup →
      (registerAll empty calls).1 =
        (List.range' 1 calls.length).map Outcome.returned) := by
  refine ⟨fun s n d h => ?_, fun calls h => ?_⟩
  · exact registerAgentType_of_fresh s n d ((UnorderedMap.find?_eq_none_iff n _).2 h)
  · simpa [empty] using registerAll_fresh calls empty (by simp [empty, UnorderedMap.find?]) h

/-- A first registration on the empty registry returns 1, and two distinct
names registered on the empty registry receive the ids 1 and 2. -/
theorem registerAgentType_sequential_ids_witness :
    registerAgentType empty "oxygen" "Oxygen" =
        (.returned 1, ⟨[⟨"oxygen", "Oxygen"⟩], [("oxygen", 1)]⟩) ∧
    (registerAll empty [("oxygen", "Oxygen"), ("glucose", "Glucose")]).1 =
      [.returned 1, .returned 2] :=
  ⟨registerAgentType_sequential_ids.1 empty "oxygen" "Oxygen" (by decide),
   registerAgentType_sequential_ids.2 [("oxygen", "Oxygen"), ("glucose", "Glucose")]
    (by decide)⟩

theorem registerAgentType_thrown_iff (s : RegistryState) (n d : String) :
    (registerAgentType s n d).1 = .thrown duplicateNameError ↔
      n ∈ s.agentRegistryMap.map Prod.fst := by
  cases h : UnorderedMap.find? n s.agentRegistryMap with
  | none =>
    rw [registerAgentType_of_fresh s n d h]
    have := (UnorderedMap.find?_eq_none_iff n _).1 h
    simp [this]
  | some v =>
    rw [registerAgentType_of_present s n d v h]
    have : ¬ n ∉ s.agentRegistryMap.map Prod.fst := fun hn => by
      rw [← UnorderedMap.find?_eq_none_iff, h] at hn
      exact Option.noConfusion hn
    simpa using this

/-- C2: in every registry state `registerAgentType` fails with the
duplicate-name error exactly when the internal name is already a key of the
name map, whatever the display name; the failing call leaves the entry
sequence and the name map as they were; and in a state reached from the empty
registry by a sequence of calls, the names that make it fail are exactly the
names of those earlier calls. -/
theorem registerAgentType_duplicate_iff :
    (∀ (s : RegistryState) (n d : String),
      ((registerAgentType s n d).1 = .thrown duplicateNameError ↔
        n ∈ s.agentRegistryMap.map Prod.fst) ∧
      ((registerAgentType s n d).1 = .thrown duplicateNameError →
        (registerAgentType s n d).2 = s)) ∧
    (∀ (calls : List (String × String)) (n d : String),
      (registerAgentType (registerAll empty calls).2 n d).1 = .thrown duplicateNameError ↔
        n ∈ calls.map Prod.fst) := by
  refine ⟨fun s n d => ⟨registerAgentType_thrown_iff s n d, fun h => ?_⟩,
    fun calls n d => ?_⟩
  · cases hf : UnorderedMap.find? n s.agentRegistryMap with
    | none =>
      rw [registerAgentType_of_fresh s n d hf] at h
      simp at h
    | some v => rw [registerAgentType_of_present s n d v hf]
  · rw [registerAgentType_thrown_iff, ← not_iff_not, ← UnorderedMap.find?_eq_none_iff,
      registerAll_find?_none_iff]
    simp [empty, UnorderedMap.find?]

/-- Registering "oxygen" a second time, under another display name, throws and
changes nothing. -/
theorem registerAgentType_duplicate_iff_witness :
    (registerAgentType (registerAll empty [("oxygen", "Oxygen")]).2 "oxygen" "O2").2 =
      (registerAll empty [("oxygen", "Oxygen")]).2 :=
  (registerAgentType_duplicate_iff.1 (registerAll empty [("oxygen", "Oxygen")]).2
    "oxygen" "O2").2 (by decide)

/-- C3: if `registerAgentType s n d` returns `id`, then in the state it leaves
and in every state reached from it by further `registerAgentType` calls
(returning or throwing), `getAgentId n` returns `id`, `getAgentInternalName id`
returns `n` and `getAgentDisplayName id` returns `d`. -/
theorem lookups_roundtrip_after_register (s : RegistryState) (n d : String) (id : Nat)
    (calls : List (String × String))
    (h : (registerAgentType s n d).1 = .returned id) :
    getAgentId (registerAll (registerAgentType s n d).2 calls).2 n = .returned id ∧
    getAgentInternalName (registerAll (registerAgentType s n d).2 calls).2 id = .returned n ∧
    getAgentDisplayName (registerAll (registerAgentType s n d).2 calls).2 id = .returned d := by
  cases hf : UnorderedMap.find? n s.agentRegistryMap with
  | some v =>
    rw [registerAgentType_of_present s n d v hf] at h
    simp at h
  | none =>
    rw [registerAgentType_of_fresh s n d hf] at h ⊢
    simp only [Outcome.returned.injEq] at h
    subst h
    obtain ⟨hmap, extra, hext⟩ := registerAll_monotone calls
      (⟨s.agentRegistry ++ [⟨n, d⟩],
        s.agentRegistryMap ++ [(n, s.agentRegistry.length + 1)]⟩ : RegistryState)
    have hfind := hmap n (s.agentRegistry.length + 1)
      (by simp [UnorderedMap.find?_append, hf, UnorderedMap.find?])
    simp only at hext
    have hidx : vectorIndex (s.agentRegistry ++ [⟨n, d⟩] ++ extra)
        (((s.agentRegistry.length + 1 : Nat) : Int) - 1) =
        some (⟨n, d⟩ : AgentRegistryEntry) := by
      have h0 : (0 : Int) ≤ ((s.agentRegistry.length + 1 : Nat) : Int) - 1 := by omega
      have h1 : (((s.agentRegistry.length + 1 : Nat) : Int) - 1).toNat =
          s.agentRegistry.length := by omega
      rw [vectorIndex, if_pos h0, h1, List.append_assoc,
        List.getElem?_append_right (Nat.le_refl _)]
      simp
    have hlen : ¬ s.agentRegistry.length + 1 >
        (s.agentRegistry ++ [(⟨n, d⟩ : AgentRegistryEntry)] ++ extra).length := by
      simp
    refine ⟨?_, ?_, ?_⟩
    · simp [getAgentId, hfind]
    · simp only [getAgentInternalName, hext, hlen, if_false, hidx]
    · simp only [getAgentDisplayName, hext, hlen, if_false, hidx]

/-- After "oxygen" is registered on the empty registry, and after a later
registration and a later rejected duplicate, the three lookups agree on id 1. -/
theorem lookups_roundtrip_after_register_witness :
    getAgentId (registerAll (registerAgentType empty "oxygen" "Oxygen").2
      [("glucose", "Glucose"), ("oxygen", "O2")]).2 "oxygen" = .returned 1 ∧
    getAgentInternalName (registerAll (registerAgentType empty "oxygen" "Oxygen").2
      [("glucose", "Glucose"), ("oxygen", "O2")]).2 1 = .returned "oxygen" ∧
    getAgentDisplayName (registerAll (registerAgentType empty "oxygen" "Oxygen").2
      [("glucose", "Glucose"), ("oxygen", "O2")]).2 1 = .returned "Oxygen" :=
  lookups_roundtrip_after_register empty "oxygen" "Oxygen" 1
    [("glucose", "Glucose"), ("oxygen", "O2")] (by decide)

/-- C4: the id 0 (`NULL_AGENT`) passes the check `id > size` of
`getAgentDisplayName` and `getAgentInternalName` in every registry state, so
that both index the entry sequence at `id - 1` outside its bounds instead of
throwing; every id above the number of entries does throw the invalid-id
error. -/
theorem lookup_by_null_agent_unchecked (s : RegistryState) (k : Nat) :
    getAgentDisplayName s NULL_AGENT = .undefinedBehaviour ∧
    getAgentInternalName s NULL_AGENT = .undefinedBehaviour ∧
    getAgentDisplayName s (s.agentRegistry.length + 1 + k) = .thrown invalidIdError ∧
    getAgentInternalName s (s.agentRegistry.length + 1 + k) = .thrown invalidIdError := by
  have hk : s.agentRegistry.length + 1 + k > s.agentRegistry.length := by omega
  simp [getAgentDisplayName, getAgentInternalName, NULL_AGENT, vectorIndex, hk]

theorem registeredAs_find? (calls : List (String × String)) (s : RegistryState)
    (name : String) (id : Nat) (h : registeredAs s calls name id) :
    UnorderedMap.find? name (registerAll s calls).2.agentRegistryMap = some id := by
  induction calls generalizing s with
  | nil => simp [registeredAs, registerAll] at h
  | cons c rest ih =>
    obtain ⟨n, d⟩ := c
    simp only [registeredAs, registerAll, List.map_cons, List.zip_cons_cons,
      List.mem_cons, Prod.mk.injEq] at h
    rcases h with ⟨hn, hid⟩ | h
    · subst hn
      cases hf : UnorderedMap.find? name s.agentRegistryMap with
      | some v =>
        rw [registerAgentType_of_present s name d v hf] at hid
        simp at hid
      | none =>
        rw [registerAgentType_of_fresh s name d hf] at hid
        simp only [Outcome.returned.injEq] at hid
        refine (registerAll_monotone rest _).1 name id ?_
        rw [registerAgentType_of_fresh s name d hf]
        simp [UnorderedMap.find?_append, hf, UnorderedMap.find?, hid]
    · exact ih _ h

theorem registeredAs_of_mem (calls : List (String × String)) (s : RegistryState)
    (name : String) (hfresh : UnorderedMap.find? name s.agentRegistryMap = none)
    (hmem : name ∈ calls.map Prod.fst) : ∃ id, registeredAs s calls name id := by
  induction calls generalizing s with
  | nil => simp at hmem
  | cons c rest ih =>
    obtain ⟨n, d⟩ := c
    by_cases hn : name = n
    · subst hn
      refine ⟨s.agentRegistry.length + 1, ?_⟩
      simp [registeredAs, registerAll, registerAgentType_of_fresh s name d hfresh]
    · have hrest : name ∈ rest.map Prod.fst := by
        simpa [hn] using hmem
      obtain ⟨id, hid⟩ := ih (registerAgentType s n d).2
        ((registerAgentType_find?_none_iff s n d name).2 ⟨hfresh, hn⟩) hrest
      refine ⟨id, ?_⟩
      simp only [registeredAs, registerAll, List.map_cons, List.zip_cons_cons, List.mem_cons]
      exact Or.inr hid

/-- C5: in the state reached from the empty registry by any sequence of
`registerAgentType` calls, `getAgentId name` throws the unknown-name error
exactly when no call of the sequence registered `name` successfully, and for a
name that a call registered with id `id` it returns `id`. -/
theorem getAgentId_unknown_iff_never_registered (calls : List (String × String))
    (name : String) :
    (getAgentId (registerAll empty calls).2 name = .thrown unknownNameError ↔
      ∀ id, ¬ registeredAs empty calls name id) ∧
    (∀ id, registeredAs empty calls name id →
      getAgentId (registerAll empty calls).2 name = .returned id) := by
  have hempty : UnorderedMap.find? name empty.agentRegistryMap = none := by
    simp [empty, UnorderedMap.find?]
  constructor
  · constructor
    · intro h id hid
      have := registeredAs_find? calls empty name id hid
      simp [getAgentId, this] at h
    · intro h
      have hnot : name ∉ calls.map Prod.fst := fun hmem => by
        obtain ⟨id, hid⟩ := registeredAs_of_mem calls empty name hempty hmem
        exact h id hid
      have := (registerAll_find?_none_iff calls empty name).2 ⟨hempty, hnot⟩
      simp [getAgentId, this]
  · intro id hid
    have := registeredAs_find? calls empty name id hid
    simp [getAgentId, this]

/-- After "oxygen" and "glucose" are registered, and a duplicate of "oxygen"
is rejected, "glucose" is found under id 2. -/
theorem getAgentId_unknown_iff_never_registered_witness :
    getAgentId (registerAll empty
      [("oxygen", "Oxygen"), ("glucose", "Glucose"), ("oxygen", "O2")]).2 "glucose" =
      .returned 2 :=
  (getAgentId_unknown_iff_never_registered
    [("oxygen", "Oxygen"), ("glucose", "Glucose"), ("oxygen", "O2")] "glucose").2 2
    (by decide)

end AgentRegistry

/-! ## AgentLifetimeSystem -/

namespace AgentLifetimeSystem

variable {α : Type}

/-- C6: for every list of agent entities and every elapsed time,
`AgentLifetimeSystem::update` replaces each agent's `m_timeToLive` by its old
value minus the elapsed time, touches nothing else, and calls `removeEntity`
for exactly the entities whose new `m_timeToLive` is at most 0, in iteration
order.  An agent with `m_timeToLive = 500` ticked three times with 200 is not
removed by the first two ticks and is removed by the third, with
`m_timeToLive = -100`. -/
theorem update_ages_and_removes_expired :
    (∀ (milliseconds : Int) (entities : List (Nat × AgentComponent α)),
      (update milliseconds entities).1 = entities.map (fun entry =>
        (entry.1, { entry.2 with m_timeToLive := entry.2.m_timeToLive - milliseconds })) ∧
      (update milliseconds entities).2 =
        (((update milliseconds entities).1.filter
          (fun entry => decide (entry.2.m_timeToLive ≤ 0))).map Prod.fst)) ∧
    (∀ (entity : Nat) (agent : AgentComponent α),
      (update 200 [(entity, { agent with m_timeToLive := 500 })]).2 = [] ∧
      (update 200 (update 200 [(entity, { agent with m_timeToLive := 500 })]).1).2 = [] ∧
      update 200 (update 200 (update 200 [(entity, { agent with m_timeToLive := 500 })]).1).1 =
        ([(entity, { agent with m_timeToLive := -100 })], [entity])) := by
  constructor
  · intro milliseconds entities
    induction entities with
    | nil => simp [update]
    | cons entry rest ih =>
      obtain ⟨entity, agent⟩ := entry
      obtain ⟨ih1, ih2⟩ := ih
      by_cases h : agent.m_timeToLive - milliseconds ≤ 0
      · constructor
        · simp [update, h, ih1]
        · simp only [update, h, if_true, List.filter_cons, decide_True, List.map_cons]
          rw [ih2]
      · constructor
        · simp [update, h, ih1]
        · simp only [update, h, if_false, List.filter_cons, decide_False, List.map_cons]
          rw [ih2]
          simp
  · intro entity agent
    simp [update]

end AgentLifetimeSystem

/-! ## AgentEmitterSystem -/

namespace AgentEmitterSystem

variable {ρ α : Type} [FloatArith α]

theorem emitWhile_of_disabled (random : RandomSource ρ α) (e : AgentEmitterComponent α)
    (position : Vector3 α) (t : TimedAgentEmitterComponent) (g : GameState ρ α)
    (h : ¬ (t.m_emitInterval > 0 ∧ t.m_timeSinceLastEmission ≥ t.m_emitInterval)) :
    emitWhile random e position t g = (t, g) := by
  rw [emitWhile, if_neg h]

/-- The `while` loop runs `k` times when the accumulator holds `k` whole
intervals and a remainder below the interval. -/
theorem emitWhile_of_intervals (random : RandomSource ρ α) (e : AgentEmitterComponent α)
    (position : Vector3 α) (interval r : Int) (hi : 0 < interval) (hr0 : 0 ≤ r)
    (hr : r < interval) (k : Nat) (g : GameState ρ α) :
    emitWhile random e position ⟨interval, r + k * interval⟩ g =
      (⟨interval, r⟩, (burst random e position e.m_particlesPerEmission)^[k] g) := by
  induction k generalizing g with
  | zero =>
    rw [emitWhile_of_disabled]
    · simp
    · simp
      omega
  | succ k ih =>
    have hk : (0 : Int) ≤ (k : Int) * interval := by positivity
    have hcond : (0 < interval) ∧ r + ((k + 1 : Nat) : Int) * interval ≥ interval := by
      refine ⟨hi, ?_⟩
      push_cast
      rw [add_mul, one_mul]
      omega
    rw [emitWhile, if_pos hcond]
    have hsub : r + ((k + 1 : Nat) : Int) * interval - interval = r + (k : Int) * interval := by
      push_cast
      ring
    simp only [hsub]
    rw [ih, Function.iterate_succ_apply]

/-- Each call of the one-argument `emitAgent` takes one fresh entity id. -/
theorem burst_nextEntityId (random : RandomSource ρ α) (e : AgentEmitterComponent α)
    (position : Vector3 α) (count : Nat) (g : GameState ρ α) :
    (burst random e position count g).nextEntityId = g.nextEntityId + count := by
  induction count generalizing g with
  | zero => simp [burst]
  | succ n ih =>
    simp only [burst, ih, AgentEmitterComponent.emitAgentDefault,
      AgentEmitterComponent.emitAgent]
    omega

theorem iterate_burst_nextEntityId (random : RandomSource ρ α) (e : AgentEmitterComponent α)
    (position : Vector3 α) (count k : Nat) (g : GameState ρ α) :
    ((burst random e position count)^[k] g).nextEntityId = g.nextEntityId + k * count := by
  induction k generalizing g with
  | zero => simp
  | succ k ih =>
    rw [Function.iterate_succ_apply, ih, burst_nextEntityId]
    ring

theorem update_append (random : RandomSource ρ α) (milliseconds : Int)
    (l₁ l₂ : List (Nat × AgentEmitterComponent α × TimedAgentEmitterComponent × Vector3 α))
    (g : GameState ρ α) :
    update random milliseconds (l₁ ++ l₂) g =
      ((update random milliseconds l₁ g).1 ++
          (update random milliseconds l₂ (update random milliseconds l₁ g).2).1,
        (update random milliseconds l₂ (update random milliseconds l₁ g).2).2) := by
  induction l₁ generalizing g with
  | nil => simp [update]
  | cons entry rest ih =>
    obtain ⟨entity, e, t, position⟩ := entry
    simp [update, ih]

/-- C7: for a timed emitter with `m_emitInterval = interval > 0`, accumulator
`a ≥ 0` and elapsed time `dt ≥ 0`, the pass of `AgentEmitterSystem::update`
over that entity fires exactly `(a + dt) / interval` (rounded down) bursts of
`m_particlesPerEmission` particles, taking that many times
`m_particlesPerEmission` fresh entity ids, and leaves
`m_timeSinceLastEmission = (a + dt) mod interval`, which is at least 0 and
below the interval; this holds wherever the entity stands in the filter. -/
theorem update_fires_whole_intervals (random : RandomSource ρ α) (interval a dt : Int)
    (e : AgentEmitterComponent α) (position : Vector3 α) (entity : Nat)
    (before after : List
      (Nat × AgentEmitterComponent α × TimedAgentEmitterComponent × Vector3 α))
    (g : GameState ρ α) (hi : 0 < interval) (ha : 0 ≤ a) (hdt : 0 ≤ dt) :
    updateEntity random dt e position ⟨interval, a⟩ g =
      (⟨interval, (a + dt) % interval⟩,
        (burst random e position e.m_particlesPerEmission)^[((a + dt) / interval).toNat] g) ∧
    update random dt (before ++ (entity, e, ⟨interval, a⟩, position) :: after) g =
      ((update random dt before g).1 ++
        (entity, e, ⟨interval, (a + dt) % interval⟩, position) ::
          (update random dt after
            ((burst random e position e.m_particlesPerEmission)^[((a + dt) / interval).toNat]
              (update random dt before g).2)).1,
       (update random dt after
            ((burst random e position e.m_particlesPerEmission)^[((a + dt) / interval).toNat]
              (update random dt before g).2)).2) ∧
    ((burst random e position e.m_particlesPerEmission)^[((a + dt) / interval).toNat]
        g).nextEntityId =
      g.nextEntityId + ((a + dt) / interval).toNat * e.m_particlesPerEmission ∧
    ((((a + dt) / interval).toNat : Nat) : Int) = (a + dt) / interval ∧
    0 ≤ (a + dt) % interval ∧ (a + dt) % interval < interval := by
  have hq : 0 ≤ (a + dt) / interval := Int.ediv_nonneg (by omega) (by omega)
  have hcast : ((((a + dt) / interval).toNat : Nat) : Int) = (a + dt) / interval :=
    Int.toNat_of_nonneg hq
  have hr0 : 0 ≤ (a + dt) % interval := Int.emod_nonneg _ (by omega)
  have hr : (a + dt) % interval < interval := Int.emod_lt_of_pos _ hi
  have hsplit : a + dt =
      (a + dt) % interval + ((((a + dt) / interval).toNat : Nat) : Int) * interval := by
    rw [hcast, mul_comm]
    exact (Int.emod_add_ediv (a + dt) interval).symm
  have hone : ∀ g' : GameState ρ α, updateEntity random dt e position ⟨interval, a⟩ g' =
      (⟨interval, (a + dt) % interval⟩,
        (burst random e position e.m_particlesPerEmission)^[((a + dt) / interval).toNat]
          g') := by
    intro g'
    have := emitWhile_of_intervals random e position interval ((a + dt) % interval) hi hr0 hr
      ((a + dt) / interval).toNat g'
    rw [← hsplit] at this
    simpa [updateEntity] using this
  refine ⟨hone g, ?_, iterate_burst_nextEntityId _ _ _ _ _ _, hcast, hr0, hr⟩
  rw [update_append]
  simp only [update, hone]

/-- An emitter with interval 100 and an empty accumulator, ticked once with
350, fires 3 bursts (6 particles, two per burst) and is left with 50. -/
theorem update_fires_whole_intervals_witness :
    updateEntity lowestDraw 350 sampleEmitter ⟨0, 0, 0⟩ ⟨100, 0⟩ sampleGame =
      (⟨100, 50⟩, (burst lowestDraw sampleEmitter ⟨0, 0, 0⟩ 2)^[3] sampleGame) ∧
    ((burst lowestDraw sampleEmitter ⟨0, 0, 0⟩ 2)^[3] sampleGame).nextEntityId = 10 + 3 * 2 :=
  ⟨(update_fires_whole_intervals lowestDraw 100 0 350 sampleEmitter ⟨0, 0, 0⟩ 7 [] []
      sampleGame (by decide) (by decide) (by decide)).1,
   (update_fires_whole_intervals lowestDraw 100 0 350 sampleEmitter ⟨0, 0, 0⟩ 7 [] []
      sampleGame (by decide) (by decide) (by decide)).2.2.1⟩

/-- C8: for a timed emitter with `m_emitInterval ≤ 0`, whatever the elapsed
time, the accumulator and `m_particlesPerEmission`, the pass of
`AgentEmitterSystem::update` over that entity leaves the engine state (random
generator, entity ids, added components) as it was, so no particle is
created, and changes nothing of the entity but `m_timeSinceLastEmission`,
which grows by the elapsed time. -/
theorem update_disabled_emits_nothing (random : RandomSource ρ α) (interval a dt : Int)
    (e : AgentEmitterComponent α) (position : Vector3 α) (entity : Nat)
    (before after : List
      (Nat × AgentEmitterComponent α × TimedAgentEmitterComponent × Vector3 α))
    (g : GameState ρ α) (hi : interval ≤ 0) :
    updateEntity random dt e position ⟨interval, a⟩ g = (⟨interval, a + dt⟩, g) ∧
    update random dt (before ++ (entity, e, ⟨interval, a⟩, position) :: after) g =
      ((update random dt before g).1 ++
        (entity, e, ⟨interval, a + dt⟩, position) ::
          (update random dt after (update random dt before g).2).1,
       (update random dt after (update random dt before g).2).2) := by
  have hone : ∀ g' : GameState ρ α, updateEntity random dt e position ⟨interval, a⟩ g' =
      (⟨interval, a + dt⟩, g') := by
    intro g'
    rw [updateEntity, emitWhile_of_disabled]
    simp only [not_and]
    intro h
    omega
  refine ⟨hone g, ?_⟩
  rw [update_append]
  simp only [update, hone]

/-- An emitter with interval 0 and accumulator 40, ticked with 350, creates
nothing and is left with 390. -/
theorem update_disabled_emits_nothing_witness :
    updateEntity lowestDraw 350 sampleEmitter ⟨0, 0, 0⟩ ⟨0, 40⟩ sampleGame =
      (⟨0, 390⟩, sampleGame) :=
  (update_disabled_emits_nothing lowestDraw 0 40 350 sampleEmitter ⟨0, 0, 0⟩ 7 [] []
    sampleGame (by decide)).1

end AgentEmitterSystem

/-! ## AgentAbsorberSystem -/

namespace AgentAbsorberSystem

variable {α : Type}

theorem containsEntity_modify {β : Type} (k : Nat) (f : β → β) (m : List (Nat × β))
    (x : Nat) : containsEntity (UnorderedMap.modify k f m) x = containsEntity m x := by
  unfold containsEntity
  rw [UnorderedMap.find?_modify]
  by_cases h : x = k
  · subst h
    cases UnorderedMap.find? x m <;> simp
  · simp [h]

theorem absorbs_iff (w : AbsorberWorld α) (c : Nat × Nat) :
    absorbs w c = true ↔
      ∃ agentEntity absorberEntity agent absorber,
        resolve w c.1 c.2 = some (agentEntity, absorberEntity) ∧
        UnorderedMap.find? agentEntity w.m_agents = some agent ∧
        UnorderedMap.find? absorberEntity w.m_absorbers = some absorber ∧
        absorber.canAbsorbAgent agent.m_agentId = true ∧ agent.m_timeToLive > 0 := by
  unfold absorbs
  cases hres : resolve w c.1 c.2 with
  | none => simp
  | some p =>
    obtain ⟨ae, be⟩ := p
    cases hag : UnorderedMap.find? ae w.m_agents with
    | none => simp [hag]
    | some agent =>
      cases hab : UnorderedMap.find? be w.m_absorbers with
      | none => simp [hag, hab]
      | some absorber =>
        simp only [hag, hab, Bool.and_eq_true, decide_eq_true_eq, Option.some.injEq,
          Prod.mk.injEq]
        constructor
        · rintro ⟨h1, h2⟩
          exact ⟨ae, be, agent, absorber, ⟨rfl, rfl⟩, hag, hab, h1, h2⟩
        · rintro ⟨ae', be', agent', absorber', ⟨rfl, rfl⟩, h2, h3, h4, h5⟩
          rw [hag] at h2
          rw [hab] at h3
          simp only [Option.some.injEq] at h2 h3
          subst h2 h3
          exact ⟨h4, h5⟩

variable [Zero α] [Add α]

/-- The body of the manifold loop either leaves the world as it is, when the
guard fails, or credits the absorber and zeroes the agent. -/
theorem processManifold_cases (w : AbsorberWorld α) (c : Nat × Nat) :
    (absorbs w c = false ∧ processManifold w c = w) ∨
    ∃ agentEntity absorberEntity agent absorber,
      resolve w c.1 c.2 = some (agentEntity, absorberEntity) ∧
      UnorderedMap.find? agentEntity w.m_agents = some agent ∧
      UnorderedMap.find? absorberEntity w.m_absorbers = some absorber ∧
      absorber.canAbsorbAgent agent.m_agentId = true ∧ agent.m_timeToLive > 0 ∧
      processManifold w c =
        { m_absorbers := UnorderedMap.modify absorberEntity
            (fun a => a.addAbsorbed agent.m_agentId agent.m_potency) w.m_absorbers
          m_agents := UnorderedMap.modify agentEntity
            (fun a => { a with m_timeToLive := 0 }) w.m_agents } := by
  unfold processManifold absorbs
  cases hres : resolve w c.1 c.2 with
  | none => left; simp
  | some p =>
    obtain ⟨ae, be⟩ := p
    cases hag : UnorderedMap.find? ae w.m_agents with
    | none => left; simp [hag]
    | some agent =>
      cases hab : UnorderedMap.find? be w.m_absorbers with
      | none => left; simp [hag, hab]
      | some absorber =>
        by_cases hg : absorber.canAbsorbAgent agent.m_agentId = true ∧ agent.m_timeToLive > 0
        · right
          exact ⟨ae, be, agent, absorber, rfl, hag, hab, hg.1, hg.2, by simp [hag, hab, hg]⟩
        · left
          simp only [hag, hab, hg, if_false, and_true]
          simpa using hg

theorem resolve_processManifold (w : AbsorberWorld α) (c : Nat × Nat) (x y : Nat) :
    resolve (processManifold w c) x y = resolve w x y := by
  rcases processManifold_cases w c with ⟨_, h⟩ | ⟨ae, be, agent, absorber, _, _, _, _, _, h⟩
  · rw [h]
  · rw [h]
    simp [resolve, containsEntity_modify]

/-- What one manifold does to the agent stored for an entity: the agent is
untouched or only its `m_timeToLive` is set to 0. -/
theorem find?_agents_processManifold (w : AbsorberWorld α) (c : Nat × Nat) (x : Nat)
    (agent' : AgentComponent α)
    (h : UnorderedMap.find? x (processManifold w c).m_agents = some agent') :
    ∃ agent, UnorderedMap.find? x w.m_agents = some agent ∧
      (agent' = agent ∨ agent' = { agent with m_timeToLive := 0 }) := by
  rcases processManifold_cases w c with ⟨_, hw⟩ | ⟨ae, be, agent, absorber, _, _, _, _, _, hw⟩
  · rw [hw] at h
    exact ⟨agent', h, Or.inl rfl⟩
  · rw [hw] at h
    simp only [UnorderedMap.find?_modify] at h
    by_cases hx : x = ae
    · rw [if_pos hx] at h
      cases hf : UnorderedMap.find? x w.m_agents with
      | none => simp [hf] at h
      | some a =>
        rw [hf] at h
        simp only [Option.map_some', Option.some.injEq] at h
        exact ⟨a, rfl, Or.inr h.symm⟩
    · rw [if_neg hx] at h
      exact ⟨agent', h, Or.inl rfl⟩

/-- What one manifold does to the absorber stored for an entity: its
allow-list is untouched. -/
theorem find?_absorbers_processManifold (w : AbsorberWorld α) (c : Nat × Nat) (x : Nat)
    (absorber' : AgentAbsorberComponent α)
    (h : UnorderedMap.find? x (processManifold w c).m_absorbers = some absorber') :
    ∃ absorber, UnorderedMap.find? x w.m_absorbers = some absorber ∧
      absorber'.m_canAbsorbAgent = absorber.m_canAbsorbAgent := by
  rcases processManifold_cases w c with ⟨_, hw⟩ | ⟨ae, be, agent, absorber, _, _, _, _, _, hw⟩
  · rw [hw] at h
    exact ⟨absorber', h, rfl⟩
  · rw [hw] at h
    simp only [UnorderedMap.find?_modify] at h
    by_cases hx : x = be
    · rw [if_pos hx] at h
      cases hf : UnorderedMap.find? x w.m_absorbers with
      | none => simp [hf] at h
      | some a =>
        rw [hf] at h
        simp only [Option.map_some', Option.some.injEq] at h
        refine ⟨a, rfl, ?_⟩
        rw [← h]
        unfold AgentAbsorberComponent.addAbsorbed
        split <;> rfl
    · rw [if_neg hx] at h
      exact ⟨absorber', h, rfl⟩

/-- A manifold whose guard fails keeps failing after any other manifold. -/
theorem not_absorbs_processManifold (w : AbsorberWorld α) (c c' : Nat × Nat)
    (h : absorbs w c = false) : absorbs (processManifold w c') c = false := by
  rw [Bool.eq_false_iff] at h ⊢
  intro habs
  obtain ⟨ae, be, agent', absorber', h1, h2, h3, h4, h5⟩ := (absorbs_iff _ c).1 habs
  rw [resolve_processManifold] at h1
  obtain ⟨agent, hag, hcase⟩ := find?_agents_processManifold w c' ae agent' h2
  obtain ⟨absorber, hab, hcan⟩ := find?_absorbers_processManifold w c' be absorber' h3
  rcases hcase with rfl | rfl
  · refine h ((absorbs_iff w c).2 ⟨ae, be, agent', absorber, h1, hag, hab, ?_, h5⟩)
    simpa [AgentAbsorberComponent.canAbsorbAgent, hcan] using h4
  · simp at h5

/-- The guard of a manifold fails once the manifold has been processed. -/
theorem not_absorbs_self (w : AbsorberWorld α) (c : Nat × Nat) :
    absorbs (processManifold w c) c = false := by
  rcases processManifold_cases w c with ⟨hn, hw⟩ | ⟨ae, be, agent, absorber, hres, _, _, _, _, hw⟩
  · rw [hw]
    exact hn
  · rw [Bool.eq_false_iff]
    intro habs
    obtain ⟨ae', be', agent', absorber', h1, h2, _, _, h5⟩ := (absorbs_iff _ c).1 habs
    rw [resolve_processManifold, hres] at h1
    simp only [Option.some.injEq, Prod.mk.injEq] at h1
    obtain ⟨rfl, rfl⟩ := h1
    rw [hw] at h2
    simp only [UnorderedMap.find?_modify, if_true] at h2
    cases hf : UnorderedMap.find? ae w.m_agents with
    | none => simp [hf] at h2
    | some a =>
      rw [hf] at h2
      simp only [Option.map_some', Option.some.injEq] at h2
      rw [← h2] at h5
      simp at h5

theorem not_absorbs_foldl (l : List (Nat × Nat)) (w : AbsorberWorld α) (c : Nat × Nat)
    (h : absorbs w c = false) : absorbs (l.foldl processManifold w) c = false := by
  induction l generalizing w with
  | nil => exact h
  | cons c' rest ih => exact ih _ (not_absorbs_processManifold w c c' h)

theorem not_absorbs_of_mem (l : List (Nat × Nat)) (w : AbsorberWorld α) (c : Nat × Nat)
    (h : c ∈ l) : absorbs (l.foldl processManifold w) c = false := by
  induction l generalizing w with
  | nil => simp at h
  | cons c' rest ih =>
    rcases List.mem_cons.1 h with rfl | h
    · exact not_absorbs_foldl rest _ c (not_absorbs_self w c)
    · exact ih _ h

theorem processManifold_of_not_absorbs (w : AbsorberWorld α) (c : Nat × Nat)
    (h : absorbs w c = false) : processManifold w c = w := by
  rcases processManifold_cases w c with ⟨_, hw⟩ | ⟨ae, be, agent, absorber, h1, h2, h3, h4, h5, _⟩
  · exact hw
  · rw [(absorbs_iff w c).2 ⟨ae, be, agent, absorber, h1, h2, h3, h4, h5⟩] at h
    exact Bool.noConfusion h

/-- C10: for every world and every manifold list, one more report of a pair
that already occurs earlier in the list, at any later position, leaves the
result of `AgentAbsorberSystem::update` (all ledgers, all agents) as it is
without that report; so three reports of one pair give the result of a single
report. -/
theorem update_ignores_repeated_contact :
    (∀ (w : AbsorberWorld α) (earlier later : List (Nat × Nat)) (c : Nat × Nat),
      c ∈ earlier → update w (earlier ++ c :: later) = update w (earlier ++ later)) ∧
    (∀ (w : AbsorberWorld α) (c : Nat × Nat), update w [c, c, c] = update w [c]) := by
  have key : ∀ (w : AbsorberWorld α) (earlier later : List (Nat × Nat)) (c : Nat × Nat),
      c ∈ earlier → update w (earlier ++ c :: later) = update w (earlier ++ later) := by
    intro w earlier later c hc
    simp only [update, List.foldl_append, List.foldl_cons]
    rw [processManifold_of_not_absorbs _ c (not_absorbs_of_mem earlier _ c hc)]
  refine ⟨key, fun w c => ?_⟩
  have h3 := key w [c, c] [] c (by simp)
  have h2 := key w [c] [] c (by simp)
  simpa using h3.trans h2

end AgentAbsorberSystem

theorem forall₂_and_mem {β γ : Type} {R : β → γ → Prop} {Q : γ → Prop} {l₁ : List β}
    {l₂ : List γ} (h : List.Forall₂ R l₁ l₂) (hq : ∀ y ∈ l₂, Q y) :
    List.Forall₂ (fun x y => R x y ∧ Q y) l₁ l₂ := by
  induction h with
  | nil => exact List.Forall₂.nil
  | cons hxy _ ih =>
    exact List.Forall₂.cons ⟨hxy, hq _ (by simp)⟩ (ih (fun y hy => hq y (by simp [hy])))

namespace AgentAbsorberSystem

variable {α : Type}

theorem find?_clearAbsorbed (absorbers : List (Nat × AgentAbsorberComponent α)) (x : Nat) :
    UnorderedMap.find? x (clearAbsorbed absorbers) =
      (UnorderedMap.find? x absorbers).map (fun a => { a with m_absorbedAgents := [] }) := by
  induction absorbers with
  | nil => simp [clearAbsorbed, UnorderedMap.find?]
  | cons p rest ih =>
    obtain ⟨k, a⟩ := p
    unfold clearAbsorbed at ih ⊢
    by_cases h : k = x
    · simp [UnorderedMap.find?, h]
    · simp [UnorderedMap.find?, h, ih]

theorem resolve_clearAbsorbed (w : AbsorberWorld α) (x y : Nat) :
    resolve { w with m_absorbers := clearAbsorbed w.m_absorbers } x y = resolve w x y := by
  have h : ∀ z, containsEntity (clearAbsorbed w.m_absorbers) z =
      containsEntity w.m_absorbers z := by
    intro z
    unfold containsEntity
    rw [find?_clearAbsorbed]
    cases UnorderedMap.find? z w.m_absorbers <;> simp
  simp [resolve, h]

/-- The ledger entry of a type after `m_absorbedAgents[id] += potency`. -/
theorem find?_addAbsorbed [Zero α] [Add α] (c : AgentAbsorberComponent α) (id : Nat) (potency : α) :
    UnorderedMap.find? id (c.addAbsorbed id potency).m_absorbedAgents =
      some ((UnorderedMap.find? id c.m_absorbedAgents).getD 0 + potency) := by
  unfold AgentAbsorberComponent.addAbsorbed
  cases h : UnorderedMap.find? id c.m_absorbedAgents with
  | none => simp [UnorderedMap.find?_append, h, UnorderedMap.find?]
  | some v => simp [UnorderedMap.find?_modify, h]

theorem canAbsorbAgent_addAbsorbed [Zero α] [Add α] (c : AgentAbsorberComponent α) (id id' : Nat)
    (potency : α) : (c.addAbsorbed id potency).canAbsorbAgent id' = c.canAbsorbAgent id' := by
  unfold AgentAbsorberComponent.addAbsorbed AgentAbsorberComponent.canAbsorbAgent
  split <;> rfl

theorem foldl_credit_getD [Zero α] [Add α] (potencies : List α) (o : Option α) :
    (potencies.foldl (fun o p => some (o.getD 0 + p)) o).getD 0 =
      potencies.foldl (fun x y => x + y) (o.getD 0) := by
  induction potencies generalizing o with
  | nil => simp
  | cons p rest ih => simp [List.foldl_cons, ih]

/-- The manifold loop over contacts that pair one absorber with pairwise
distinct live agents of an allowed type. -/
theorem foldl_processManifold_absorbs [Zero α] [Add α] (b A : Nat)
    (contacts : List (Nat × Nat)) (agents : List (Nat × AgentComponent α))
    (w₀ w : AbsorberWorld α) (hw : ∀ x y, resolve w x y = resolve w₀ x y)
    (absorber : AgentAbsorberComponent α)
    (hb : UnorderedMap.find? b w.m_absorbers = some absorber)
    (hcan : absorber.canAbsorbAgent A = true)
    (hnodup : (agents.map Prod.fst).Nodup)
    (hagents : ∀ p ∈ agents, UnorderedMap.find? p.1 w.m_agents = some p.2 ∧
      p.2.m_agentId = A ∧ p.2.m_timeToLive > 0)
    (hcontacts : List.Forall₂ (fun c p => resolve w₀ c.1 c.2 = some (p.1, b)) contacts agents) :
    (∃ absorber', UnorderedMap.find? b (contacts.foldl processManifold w).m_absorbers =
        some absorber' ∧
      UnorderedMap.find? A absorber'.m_absorbedAgents =
        (agents.map (fun p => p.2.m_potency)).foldl (fun o p => some (o.getD 0 + p))
          (UnorderedMap.find? A absorber.m_absorbedAgents)) ∧
    (∀ p ∈ agents, UnorderedMap.find? p.1 (contacts.foldl processManifold w).m_agents =
      some { p.2 with m_timeToLive := 0 }) ∧
    (∀ x, x ∉ agents.map Prod.fst →
      UnorderedMap.find? x (contacts.foldl processManifold w).m_agents =
        UnorderedMap.find? x w.m_agents) := by
  induction hcontacts generalizing w absorber with
  | nil => exact ⟨⟨absorber, hb, rfl⟩, by simp, fun _ _ => rfl⟩
  | @cons c p cs ps hc hcs ih =>
    obtain ⟨hp1, hp2, hp3⟩ := hagents p (by simp)
    simp only [List.map_cons, List.nodup_cons] at hnodup
    have hstep : processManifold w c =
        { m_absorbers := UnorderedMap.modify b
            (fun a => a.addAbsorbed A p.2.m_potency) w.m_absorbers
          m_agents := UnorderedMap.modify p.1
            (fun a => { a with m_timeToLive := 0 }) w.m_agents } := by
      rcases processManifold_cases w c with
        ⟨hn, _⟩ | ⟨ae, be, agent, absorber₀, h1, h2, h3, _, _, heq⟩
      · rw [(absorbs_iff w c).2 ⟨p.1, b, p.2, absorber, (hw _ _).trans hc, hp1, hb,
          by rw [hp2]; exact hcan, hp3⟩] at hn
        exact Bool.noConfusion hn
      · rw [hw, hc] at h1
        simp only [Option.some.injEq, Prod.mk.injEq] at h1
        obtain ⟨rfl, rfl⟩ := h1
        rw [hp1] at h2
        simp only [Option.some.injEq] at h2
        subst h2
        rw [heq, hp2]
    have hb1 : UnorderedMap.find? b (processManifold w c).m_absorbers =
        some (absorber.addAbsorbed A p.2.m_potency) := by
      rw [hstep]
      simp [UnorderedMap.find?_modify, hb]
    have hagents1 : ∀ q ∈ ps, UnorderedMap.find? q.1 (processManifold w c).m_agents =
        some q.2 ∧ q.2.m_agentId = A ∧ q.2.m_timeToLive > 0 := by
      intro q hq
      obtain ⟨hq1, hq2, hq3⟩ := hagents q (by simp [hq])
      refine ⟨?_, hq2, hq3⟩
      have hne : q.1 ≠ p.1 := by
        intro heq
        exact hnodup.1 (heq ▸ List.mem_map_of_mem Prod.fst hq)
      rw [hstep]
      simp [UnorderedMap.find?_modify, hne, hq1]
    have hw1 : ∀ x y, resolve (processManifold w c) x y = resolve w₀ x y := by
      intro x y
      rw [resolve_processManifold, hw]
    obtain ⟨⟨absorber', hfin, hledger⟩, hzero, hother⟩ :=
      ih (processManifold w c) hw1 (absorber.addAbsorbed A p.2.m_potency) hb1
        (by rw [canAbsorbAgent_addAbsorbed]; exact hcan) hnodup.2 hagents1
    have hp' : UnorderedMap.find? p.1 (processManifold w c).m_agents =
        some { p.2 with m_timeToLive := 0 } := by
      rw [hstep]
      simp [UnorderedMap.find?_modify, hp1]
    refine ⟨⟨absorber', by simpa using hfin, ?_⟩, ?_, ?_⟩
    · rw [hledger, find?_addAbsorbed]
      simp
    · intro q hq
      rcases List.mem_cons.1 hq with rfl | hq
      · simp only [List.foldl_cons]
        rw [hother _ hnodup.1, hp']
      · simpa using hzero q hq
    · intro x hx
      simp only [List.map_cons, List.mem_cons, not_or] at hx
      simp only [List.foldl_cons]
      rw [hother x hx.2, hstep]
      simp [UnorderedMap.find?_modify, hx.1]

/-- C9: take an absorber entity `b` whose allow-list contains the type `A`,
with any prior ledger, and a manifold list that pairs `b`, in either
orientation, with pairwise distinct agent entities of type `A` whose
`m_timeToLive` is positive (a pair listing `b` first is read as intended
unless `b` also carries an agent and the other entity also an absorber).
After `AgentAbsorberSystem::update`, `absorbedAgentAmount(A)` of `b` is the
sum of the agents' potencies, added up in manifold order starting from the
zero of a fresh ledger entry, and each of these agents has
`m_timeToLive = 0` and is otherwise unchanged. -/
theorem update_credits_sum_of_potencies [Zero α] [Add α] (w : AbsorberWorld α) (b A : Nat)
    (absorber : AgentAbsorberComponent α) (agents : List (Nat × AgentComponent α))
    (contacts : List (Nat × Nat))
    (hb : UnorderedMap.find? b w.m_absorbers = some absorber)
    (hcan : absorber.canAbsorbAgent A = true)
    (hnodup : (agents.map Prod.fst).Nodup)
    (hagents : ∀ p ∈ agents, UnorderedMap.find? p.1 w.m_agents = some p.2 ∧
      p.2.m_agentId = A ∧ p.2.m_timeToLive > 0)
    (hcontacts : List.Forall₂ (fun c p => c = (p.1, b) ∨
      (c = (b, p.1) ∧ ¬ (containsEntity w.m_agents b = true ∧
        containsEntity w.m_absorbers p.1 = true))) contacts agents) :
    (∃ absorber', UnorderedMap.find? b (update w contacts).m_absorbers = some absorber' ∧
      absorber'.absorbedAgentAmount A =
        (agents.map (fun p => p.2.m_potency)).foldl (fun x y => x + y) 0) ∧
    (∀ p ∈ agents, UnorderedMap.find? p.1 (update w contacts).m_agents =
      some { p.2 with m_timeToLive := 0 }) := by
  have hbc : containsEntity w.m_absorbers b = true := by simp [containsEntity, hb]
  have hres : List.Forall₂ (fun c p => resolve w c.1 c.2 = some (p.1, b)) contacts agents := by
    refine List.Forall₂.imp ?_ (forall₂_and_mem hcontacts hagents)
    rintro c p ⟨hc, hp, -, -⟩
    have hpc : containsEntity w.m_agents p.1 = true := by simp [containsEntity, hp]
    rcases hc with rfl | ⟨rfl, hamb⟩
    · simp [resolve, hpc, hbc]
    · simp only [resolve]
      rw [if_neg hamb, if_pos ⟨hbc, hpc⟩]
  obtain ⟨⟨absorber', hfin, hledger⟩, hzero, -⟩ :=
    foldl_processManifold_absorbs b A contacts agents w
      { w with m_absorbers := clearAbsorbed w.m_absorbers } (resolve_clearAbsorbed w)
      { absorber with m_absorbedAgents := [] }
      (by simp [find?_clearAbsorbed, hb]) hcan hnodup hagents hres
  refine ⟨⟨absorber', hfin, ?_⟩, hzero⟩
  have hget := foldl_credit_getD (agents.map (fun p => p.2.m_potency)) (none : Option α)
  simp only [UnorderedMap.find?] at hledger
  rw [← hledger] at hget
  unfold AgentAbsorberComponent.absorbedAgentAmount
  rw [← Option.getD_none (a := (0 : α)), ← hget]
  cases UnorderedMap.find? A absorber'.m_absorbedAgents <;> rfl

/-- One absorber allowing type 3, touched by two agents of type 3 with
potencies 5 and 7, one manifold listing the agent first and one listing the
absorber first: the ledger shows 12 and both agents are at 0. -/
theorem update_credits_sum_of_potencies_witness :
    (∃ absorber', UnorderedMap.find? 1 (update sampleWorld [(10, 1), (1, 11)]).m_absorbers =
        some absorber' ∧ absorber'.absorbedAgentAmount 3 = 12) ∧
    (∀ p ∈ [(10, sampleAgent 5), (11, sampleAgent 7)],
      UnorderedMap.find? p.1 (update sampleWorld [(10, 1), (1, 11)]).m_agents =
        some { p.2 with m_timeToLive := 0 }) :=
  update_credits_sum_of_potencies sampleWorld 1 3 ⟨[(3, 99)], [3]⟩
    [(10, sampleAgent 5), (11, sampleAgent 7)] [(10, 1), (1, 11)]
    (by decide) (by decide) (by decide) (by decide)
    (List.Forall₂.cons (Or.inl rfl)
      (List.Forall₂.cons (Or.inr ⟨rfl, by decide⟩) List.Forall₂.nil))

/-- A second report of the pair (10, 1), after another manifold, changes
nothing; three reports of the pair credit the potency 5 once. -/
theorem update_ignores_repeated_contact_witness :
    update sampleWorld ([(10, 1), (1, 11)] ++ (10, 1) :: [(11, 1)]) =
        update sampleWorld ([(10, 1), (1, 11)] ++ [(11, 1)]) ∧
    update sampleWorld [(10, 1), (10, 1), (10, 1)] =
      { m_absorbers := [(1, ⟨[(3, 5)], [3]⟩)]
        m_agents := [(10, { sampleAgent 5 with m_timeToLive := 0 }), (11, sampleAgent 7)] } :=
  ⟨update_ignores_repeated_contact.1 sampleWorld [(10, 1), (1, 11)] [(11, 1)] (10, 1)
      (by decide),
   (update_ignores_repeated_contact.2 sampleWorld (10, 1)).trans (by decide)⟩

/-- The pair picked by the two branches is the manifold's pair in one of the
two orders, and both entities are in the filters the pointers are read from. -/
theorem resolve_eq_some (w : AbsorberWorld α) (x y a b : Nat)
    (h : resolve w x y = some (a, b)) :
    ((a, b) = (x, y) ∨ (a, b) = (y, x)) ∧
      containsEntity w.m_agents a = true ∧ containsEntity w.m_absorbers b = true := by
  unfold resolve at h
  by_cases h1 : containsEntity w.m_agents x = true ∧ containsEntity w.m_absorbers y = true
  · rw [if_pos h1] at h
    simp only [Option.some.injEq, Prod.mk.injEq] at h
    obtain ⟨rfl, rfl⟩ := h
    exact ⟨Or.inl rfl, h1.1, h1.2⟩
  · rw [if_neg h1] at h
    by_cases h2 : containsEntity w.m_absorbers x = true ∧ containsEntity w.m_agents y = true
    · rw [if_pos h2] at h
      simp only [Option.some.injEq, Prod.mk.injEq] at h
      obtain ⟨rfl, rfl⟩ := h
      exact ⟨Or.inr rfl, h2.2, h2.1⟩
    · rw [if_neg h2] at h
      exact Option.noConfusion h

theorem absorbs_of_resolve_none (w : AbsorberWorld α) (c : Nat × Nat)
    (h : resolve w c.1 c.2 = none) : absorbs w c = false := by
  unfold absorbs
  rw [h]

/-- C11: the body of the manifold loop changes the world only if the manifold
pairs, in one of the two orders, an entity of the agent filter with an entity
of the absorber filter such that the absorber allows the agent's type and the
agent's `m_timeToLive` is positive.  A manifold with no absorber entity, with
no agent entity, or with an entity that is neither, and a manifold whose
picked absorber does not allow the picked agent's type or whose picked agent
has `m_timeToLive ≤ 0`, all leave the world exactly as it was.  The step is a
total function, and whenever the branches pick a pair the two `at` lookups
find their key, so nothing is thrown. -/
theorem processManifold_inert_unless_absorbing [Zero α] [Add α] (w : AbsorberWorld α)
    (c : Nat × Nat) :
    (processManifold w c ≠ w →
      ∃ a b agent absorber, (c = (a, b) ∨ c = (b, a)) ∧
        UnorderedMap.find? a w.m_agents = some agent ∧
        UnorderedMap.find? b w.m_absorbers = some absorber ∧
        absorber.canAbsorbAgent agent.m_agentId = true ∧ agent.m_timeToLive > 0) ∧
    (containsEntity w.m_absorbers c.1 = false ∧ containsEntity w.m_absorbers c.2 = false →
      processManifold w c = w) ∧
    (containsEntity w.m_agents c.1 = false ∧ containsEntity w.m_agents c.2 = false →
      processManifold w c = w) ∧
    (containsEntity w.m_agents c.1 = false ∧ containsEntity w.m_absorbers c.1 = false →
      processManifold w c = w) ∧
    (containsEntity w.m_agents c.2 = false ∧ containsEntity w.m_absorbers c.2 = false →
      processManifold w c = w) ∧
    (∀ a b agent absorber, resolve w c.1 c.2 = some (a, b) →
      UnorderedMap.find? a w.m_agents = some agent →
      UnorderedMap.find? b w.m_absorbers = some absorber →
      absorber.canAbsorbAgent agent.m_agentId = false ∨ agent.m_timeToLive ≤ 0 →
      processManifold w c = w) ∧
    (∀ a b, resolve w c.1 c.2 = some (a, b) →
      (UnorderedMap.find? a w.m_agents).isSome = true ∧
      (UnorderedMap.find? b w.m_absorbers).isSome = true) := by
  have hnone : resolve w c.1 c.2 = none → processManifold w c = w := fun h =>
    processManifold_of_not_absorbs w c (absorbs_of_resolve_none w c h)
  refine ⟨?_, ?_, ?_, ?_, ?_, ?_, ?_⟩
  · intro hne
    rcases processManifold_cases w c with ⟨_, hw⟩ | ⟨a, b, agent, absorber, h1, h2, h3, h4, h5, _⟩
    · exact absurd hw hne
    · refine ⟨a, b, agent, absorber, ?_, h2, h3, h4, h5⟩
      rcases (resolve_eq_some w c.1 c.2 a b h1).1 with h | h
      · left
        simp only [Prod.mk.injEq] at h
        exact Prod.ext h.1.symm h.2.symm
      · right
        simp only [Prod.mk.injEq] at h
        exact Prod.ext h.2.symm h.1.symm
  · rintro ⟨h1, h2⟩
    exact hnone (by simp [resolve, h1, h2])
  · rintro ⟨h1, h2⟩
    exact hnone (by simp [resolve, h1, h2])
  · rintro ⟨h1, h2⟩
    exact hnone (by simp [resolve, h1, h2])
  · rintro ⟨h1, h2⟩
    exact hnone (by simp [resolve, h1, h2])
  · intro a b agent absorber hres hag hab hfail
    apply processManifold_of_not_absorbs
    rw [Bool.eq_false_iff]
    intro habs
    obtain ⟨a', b', agent', absorber', h1, h2, h3, h4, h5⟩ := (absorbs_iff w c).1 habs
    rw [hres] at h1
    simp only [Option.some.injEq, Prod.mk.injEq] at h1
    obtain ⟨rfl, rfl⟩ := h1
    rw [hag] at h2
    rw [hab] at h3
    simp only [Option.some.injEq] at h2 h3
    subst h2 h3
    rcases hfail with hf | hf
    · rw [hf] at h4
      exact Bool.noConfusion h4
    · omega
  · intro a b hres
    exact (resolve_eq_some w c.1 c.2 a b hres).2

/-- In the sample world a manifold between the two agents, a manifold with an
unknown entity and a manifold of an agent whose lifetime is spent change
nothing. -/
theorem processManifold_inert_unless_absorbing_witness :
    processManifold sampleWorld (10, 11) = sampleWorld ∧
    processManifold sampleWorld (10, 99) = sampleWorld ∧
    processManifold (processManifold sampleWorld (10, 1)) (1, 10) =
      processManifold sampleWorld (10, 1) :=
  ⟨(processManifold_inert_unless_absorbing sampleWorld (10, 11)).2.1 (by decide),
   (processManifold_inert_unless_absorbing sampleWorld (10, 99)).2.2.2.2.1 (by decide),
   (processManifold_inert_unless_absorbing (processManifold sampleWorld (10, 1))
      (1, 10)).2.2.2.2.2.1 10 1 { sampleAgent 5 with m_timeToLive := 0 } ⟨[(3, 104)], [3]⟩
      (by decide) (by decide) (by decide) (Or.inr (by decide))⟩

/-- Two absorber filters with the same entities and the same allow-lists are
the same once their ledgers are cleared. -/
theorem clearAbsorbed_congr (l₁ l₂ : List (Nat × AgentAbsorberComponent α))
    (h : List.Forall₂ (fun x y => x.1 = y.1 ∧ x.2.m_canAbsorbAgent = y.2.m_canAbsorbAgent)
      l₁ l₂) : clearAbsorbed l₁ = clearAbsorbed l₂ := by
  induction h with
  | nil => rfl
  | cons hxy _ ih =>
    unfold clearAbsorbed at ih ⊢
    simp only [List.map_cons, ih, hxy.1, hxy.2]

/-- C12: the result of `AgentAbsorberSystem::update` does not depend on the
ledgers held before the pass: two worlds with the same agents and with
absorber filters that agree on the entities and on every allow-list (so that
they differ at most in the `m_absorbedAgents` maps) give the same world, hence
the same ledgers, for the same manifold list; and after a pass with no
manifold every absorber reports `absorbedAgentAmount(id) = 0` for every id. -/
theorem update_independent_of_prior_ledger [Zero α] [Add α] :
    (∀ (w₁ w₂ : AbsorberWorld α) (manifolds : List (Nat × Nat)),
      w₁.m_agents = w₂.m_agents →
      List.Forall₂
        (fun x y => x.1 = y.1 ∧ x.2.m_canAbsorbAgent = y.2.m_canAbsorbAgent)
        w₁.m_absorbers w₂.m_absorbers →
      update w₁ manifolds = update w₂ manifolds) ∧
    (∀ (w : AbsorberWorld α) (entity : Nat) (absorber : AgentAbsorberComponent α),
      (entity, absorber) ∈ (update w []).m_absorbers →
      ∀ id, absorber.absorbedAgentAmount id = 0) := by
  constructor
  · intro w₁ w₂ manifolds hagents habsorbers
    unfold update
    rw [clearAbsorbed_congr _ _ habsorbers, hagents]
  · intro w entity absorber hmem id
    simp only [update, List.foldl_nil, clearAbsorbed, List.mem_map] at hmem
    obtain ⟨entry, _, hentry⟩ := hmem
    simp only [Prod.mk.injEq] at hentry
    rw [← hentry.2]
    simp [AgentAbsorberComponent.absorbedAgentAmount, UnorderedMap.find?]

/-- The sample world, whose absorber holds 99 of type 3, and the same world
with an empty ledger give the same result; with no manifold the absorber of
the sample world reports 0 of type 3. -/
theorem update_independent_of_prior_ledger_witness :
    update sampleWorld [(10, 1), (1, 11)] =
      update { sampleWorld with m_absorbers := [(1, ⟨[], [3]⟩)] } [(10, 1), (1, 11)] ∧
    (⟨[], [3]⟩ : AgentAbsorberComponent Int).absorbedAgentAmount 3 = 0 :=
  ⟨update_independent_of_prior_ledger.1 sampleWorld
      { sampleWorld with m_absorbers := [(1, ⟨[], [3]⟩)] } [(10, 1), (1, 11)] rfl
      (List.Forall₂.cons ⟨rfl, rfl⟩ List.Forall₂.nil),
   update_independent_of_prior_ledger.2 sampleWorld 1 ⟨[], [3]⟩ (by decide) 3⟩

end AgentAbsorberSystem

/-! ## AgentEmitterComponent -/

namespace AgentEmitterComponent

variable {ρ α : Type} [FloatArith α]

/-- The three components that one call of `emitAgent` hands to the entity
manager, with the velocity and the position worked out from the two draws. -/
theorem emitAgent_added (random : RandomSource ρ α) (e : AgentEmitterComponent α)
    (agentId : Nat) (amount : Int) (useAbsolutePosition : Bool)
    (emissionPosition : Vector3 α) (g : GameState ρ α) :
    (emitAgent random e agentId amount useAbsolutePosition emissionPosition g).added =
      g.added ++
        [(g.nextEntityId, Component.sceneNode e.m_particleScale e.m_meshName),
         (g.nextEntityId, Component.agent
            { m_agentId := agentId
              m_potency := FloatArith.ofInt amount
              m_timeToLive := e.m_particleLifetime
              m_velocity :=
                ⟨emissionSpeed random e g * FloatArith.sinDegrees (emissionAngle random e g),
                 emissionSpeed random e g * FloatArith.cosDegrees (emissionAngle random e g),
                 0⟩ }),
         (g.nextEntityId, Component.rigidBody false true
            (Vector3.add emissionPosition
              (if useAbsolutePosition then ⟨0, 0, 0⟩
               else
                ⟨e.m_emissionRadius * FloatArith.sinDegrees (emissionAngle random e g),
                 e.m_emissionRadius * FloatArith.cosDegrees (emissionAngle random e g),
                 0⟩)))] := by
  rfl

end AgentEmitterComponent

/-- C13: the particle spawned by the one-argument `emitAgent` carries the
emitter's `m_agentId` and `m_particleLifetime`, but its potency is
`m_potencyPerParticle` converted to `int` and back, because the value passes
through the parameter `int amount`.  For the emitter whose
`m_potencyPerParticle` is one half, whatever the random source, the position
and the engine state, the particle's potency is 0 and not one half. -/
theorem emitAgentDefault_potency_passes_through_int :
    (∀ (ρ α : Type) [FloatArith α] (random : RandomSource ρ α)
      (e : AgentEmitterComponent α) (position : Vector3 α) (g : GameState ρ α),
      ∃ (velocity spawnPosition scale : Vector3 α) (meshName : String),
        (AgentEmitterComponent.emitAgentDefault random e position g).added =
          g.added ++
            [(g.nextEntityId, Component.sceneNode scale meshName),
             (g.nextEntityId, Component.agent
                { m_agentId := e.m_agentId
                  m_potency := FloatArith.ofInt (FloatArith.toInt e.m_potencyPerParticle)
                  m_timeToLive := e.m_particleLifetime
                  m_velocity := velocity }),
             (g.nextEntityId, Component.rigidBody false true spawnPosition)]) ∧
    (∀ (ρ : Type) (random : RandomSource ρ Rat) (position : Vector3 Rat)
      (g : GameState ρ Rat),
      ∃ (velocity spawnPosition scale : Vector3 Rat) (meshName : String),
        (AgentEmitterComponent.emitAgentDefault random halfPotencyEmitter position g).added =
          g.added ++
            [(g.nextEntityId, Component.sceneNode scale meshName),
             (g.nextEntityId, Component.agent
                { m_agentId := 1
                  m_potency := 0
                  m_timeToLive := 5000
                  m_velocity := velocity }),
             (g.nextEntityId, Component.rigidBody false true spawnPosition)]) ∧
    halfPotencyEmitter.m_potencyPerParticle = 1 / 2 ∧ (0 : Rat) ≠ 1 / 2 := by
  have hgen : ∀ (ρ α : Type) [FloatArith α] (random : RandomSource ρ α)
      (e : AgentEmitterComponent α) (position : Vector3 α) (g : GameState ρ α),
      ∃ (velocity spawnPosition scale : Vector3 α) (meshName : String),
        (AgentEmitterComponent.emitAgentDefault random e position g).added =
          g.added ++
            [(g.nextEntityId, Component.sceneNode scale meshName),
             (g.nextEntityId, Component.agent
                { m_agentId := e.m_agentId
                  m_potency := FloatArith.ofInt (FloatArith.toInt e.m_potencyPerParticle)
                  m_timeToLive := e.m_particleLifetime
                  m_velocity := velocity }),
             (g.nextEntityId, Component.rigidBody false true spawnPosition)] := by
    intro ρ α _ random e position g
    exact ⟨_, _, _, _, AgentEmitterComponent.emitAgent_added random e e.m_agentId
      (FloatArith.toInt e.m_potencyPerParticle) false position g⟩
  refine ⟨hgen, ?_, rfl, by norm_num⟩
  intro ρ random position g
  obtain ⟨velocity, spawnPosition, scale, meshName, h⟩ :=
    hgen ρ Rat random halfPotencyEmitter position g
  have hnum : (1 / 2 : Rat).num = 1 := by norm_num
  have hden : (1 / 2 : Rat).den = 2 := by norm_num
  have hzero : (FloatArith.ofInt (FloatArith.toInt halfPotencyEmitter.m_potencyPerParticle) :
      Rat) = 0 := by
    show ((Int.tdiv (1 / 2 : Rat).num (1 / 2 : Rat).den : Int) : Rat) = 0
    rw [hnum, hden]
    have htdiv : Int.tdiv 1 ((2 : Nat) : Int) = 0 := by decide
    rw [htdiv]
    norm_num
  rw [hzero] at h
  exact ⟨velocity, spawnPosition, scale, meshName, h⟩

namespace AgentEmitterComponent

variable {ρ α : Type} [FloatArith α]

/-- C14: take an emitter whose two emission angles are 0 and whose two initial
speeds are one value `speed` (2 in the claim), a random source whose draws lie
between the bounds it is given, and a scalar arithmetic in which the sine of 0
degrees is 0, the cosine of 0 degrees is 1, and the speed and the radius
multiplied by 0 give 0 and multiplied by 1 give themselves, as for finite
floats.  Then every particle created by
`emitAgent` has the velocity `(0, speed, 0)`, and its spawn position is the
reference position plus `(0, m_emissionRadius, 0)` when `useAbsolutePosition`
is false (plus `(0, 0, 0)` when it is true).  In any case, with no assumption,
the velocity is `(speed · sin angle, speed · cos angle, 0)` for the drawn
speed and the drawn angle in degrees. -/
theorem emitAgent_zero_angle_fixed_speed [PartialOrder α] (random : RandomSource ρ α)
    (e : AgentEmitterComponent α) (speed : α) (agentId : Nat) (amount : Int)
    (useAbsolutePosition : Bool) (emissionPosition : Vector3 α) (g : GameState ρ α)
    (hrange : ∀ state low high, low ≤ high →
      low ≤ (random.getDouble state low high).1 ∧ (random.getDouble state low high).1 ≤ high)
    (hsin : FloatArith.sinDegrees (0 : α) = 0)
    (hcos : FloatArith.cosDegrees (0 : α) = FloatArith.ofInt 1)
    (hmul0 : speed * 0 = 0 ∧ e.m_emissionRadius * 0 = 0)
    (hmul1 : speed * FloatArith.ofInt 1 = speed ∧
      e.m_emissionRadius * FloatArith.ofInt 1 = e.m_emissionRadius)
    (hangle : e.m_minEmissionAngle = 0 ∧ e.m_maxEmissionAngle = 0)
    (hspeed : e.m_minInitialSpeed = speed ∧ e.m_maxInitialSpeed = speed) :
    (emitAgent random e agentId amount useAbsolutePosition emissionPosition g).added =
      g.added ++
        [(g.nextEntityId, Component.sceneNode e.m_particleScale e.m_meshName),
         (g.nextEntityId, Component.agent
            { m_agentId := agentId
              m_potency := FloatArith.ofInt amount
              m_timeToLive := e.m_particleLifetime
              m_velocity := ⟨0, speed, 0⟩ }),
         (g.nextEntityId, Component.rigidBody false true
            (Vector3.add emissionPosition
              (if useAbsolutePosition then ⟨0, 0, 0⟩ else ⟨0, e.m_emissionRadius, 0⟩)))] ∧
    (emitAgent random e agentId amount useAbsolutePosition emissionPosition g).added =
      g.added ++
        [(g.nextEntityId, Component.sceneNode e.m_particleScale e.m_meshName),
         (g.nextEntityId, Component.agent
            { m_agentId := agentId
              m_potency := FloatArith.ofInt amount
              m_timeToLive := e.m_particleLifetime
              m_velocity :=
                ⟨emissionSpeed random e g * FloatArith.sinDegrees (emissionAngle random e g),
                 emissionSpeed random e g * FloatArith.cosDegrees (emissionAngle random e g),
                 0⟩ }),
         (g.nextEntityId, Component.rigidBody false true
            (Vector3.add emissionPosition
              (if useAbsolutePosition then ⟨0, 0, 0⟩
               else
                ⟨e.m_emissionRadius * FloatArith.sinDegrees (emissionAngle random e g),
                 e.m_emissionRadius * FloatArith.cosDegrees (emissionAngle random e g),
                 0⟩)))] := by
  have hA : emissionAngle random e g = 0 := by
    unfold emissionAngle
    rw [hangle.1, hangle.2]
    obtain ⟨h1, h2⟩ := hrange g.rng 0 0 (le_refl _)
    exact le_antisymm h2 h1
  have hS : emissionSpeed random e g = speed := by
    unfold emissionSpeed
    rw [hspeed.1, hspeed.2]
    obtain ⟨h1, h2⟩ := hrange
      (random.getDouble g.rng e.m_minEmissionAngle e.m_maxEmissionAngle).2 speed speed
      (le_refl _)
    exact le_antisymm h2 h1
  refine ⟨?_, emitAgent_added random e agentId amount useAbsolutePosition emissionPosition g⟩
  rw [emitAgent_added, hA, hS, hsin, hcos, hmul0.1, hmul0.2, hmul1.1, hmul1.2]

/-- With integer scalars and the random source that draws the lower bound, the
sample emitter (angles 0, speeds 2, radius 1) spawns at `(7, 8, 9)` a particle
with velocity `(0, 2, 0)` and position `(7, 9, 9)`. -/
theorem emitAgent_zero_angle_fixed_speed_witness :
    (emitAgent lowestDraw sampleEmitter 1 3 false ⟨7, 8, 9⟩ sampleGame).added =
      ([(10, Component.sceneNode ⟨1, 1, 1⟩ "molecule.mesh"),
        (10, Component.agent
          { m_agentId := 1, m_potency := 3, m_timeToLive := 5000, m_velocity := ⟨0, 2, 0⟩ }),
        (10, Component.rigidBody false true ⟨7, 9, 9⟩)] : List (Nat × Component Int)) :=
  (emitAgent_zero_angle_fixed_speed lowestDraw sampleEmitter 2 1 3 false ⟨7, 8, 9⟩ sampleGame
    (fun _ _ _ h => ⟨le_refl _, h⟩) (by decide) (by decide) (by decide) (by decide)
    ⟨rfl, rfl⟩ ⟨rfl, rfl⟩).1

end AgentEmitterComponent

/-! ## AgentMovementSystem -/

namespace AgentMovementSystem

/-- C15: `AgentMovementSystem::update` keeps the entities, their order and
their agent components, and adds to each coordinate of each position the same
coordinate of the velocity, multiplied by the elapsed milliseconds converted
to a scalar and then divided by 1000.  In exact arithmetic an agent with
velocity `(10, 0, 0)` ticked with 500 moves from any position by exactly
`(5, 0, 0)`. -/
theorem update_adds_velocity_per_second :
    (∀ (α : Type) [FloatArith α] [Div α] (milliseconds : Int)
      (entities : List (Nat × AgentComponent α × Vector3 α)),
      List.Forall₂
        (fun before after =>
          after.1 = before.1 ∧ after.2.1 = before.2.1 ∧
          after.2.2.x = before.2.2.x +
            before.2.1.m_velocity.x * FloatArith.ofInt milliseconds / FloatArith.ofInt 1000 ∧
          after.2.2.y = before.2.2.y +
            before.2.1.m_velocity.y * FloatArith.ofInt milliseconds / FloatArith.ofInt 1000 ∧
          after.2.2.z = before.2.2.z +
            before.2.1.m_velocity.z * FloatArith.ofInt milliseconds / FloatArith.ofInt 1000)
        entities (update milliseconds entities)) ∧
    (∀ (entity : Nat) (agent : AgentComponent Rat) (position : Vector3 Rat),
      update 500 [(entity, { agent with m_velocity := ⟨10, 0, 0⟩ }, position)] =
        [(entity, { agent with m_velocity := ⟨10, 0, 0⟩ },
          ⟨position.x + 5, position.y, position.z⟩)]) := by
  constructor
  · intro α _ _ milliseconds entities
    induction entities with
    | nil => exact List.Forall₂.nil
    | cons value rest ih =>
      exact List.Forall₂.cons ⟨rfl, rfl, rfl, rfl, rfl⟩ ih
  · intro entity agent position
    simp only [update, List.map_cons, List.map_nil, Vector3.add, Vector3.divScalar,
      Vector3.mulScalar, FloatArith.ofInt]
    norm_num

end AgentMovementSystem

namespace UnorderedMap

variable {κ ν : Type} [DecidableEq κ]

theorem find?_assign (m : List (κ × ν)) (k k' : κ) (v : ν) :
    find? k' (assign m k v) = if k' = k then some v else find? k' m := by
  unfold assign
  cases h : find? k m with
  | none =>
    by_cases hk : k' = k
    · subst hk
      simp [find?_append, h, find?]
    · have hk' : ¬ k = k' := fun e => hk e.symm
      simp only [find?_append, find?, hk, hk', if_false]
      cases find? k' m <;> rfl
  | some w =>
    simp only [find?_modify]
    by_cases hk : k' = k
    · subst hk
      simp [h]
    · simp [hk]

end UnorderedMap

/-! ## AgentAbsorberComponent -/

namespace AgentAbsorberComponent

variable {α : Type}

theorem contains_insert (s : List Nat) (k x : Nat) :
    (UnorderedSet.insert s k).contains x = (s.contains x || decide (x = k)) := by
  unfold UnorderedSet.insert
  by_cases h : s.contains k = true
  · rw [if_pos h]
    by_cases hx : x = k
    · subst hx
      rw [h]
      rfl
    · simp [hx]
  · rw [if_neg h]
    simp [List.contains_eq_any_beq, List.any_append]

/-- The allow-list after `load`: what was allowed before, and every loaded id. -/
theorem canAbsorbAgent_load (agents : List (Nat × α)) (c : AgentAbsorberComponent α)
    (id : Nat) :
    (load c agents).canAbsorbAgent id =
      (c.canAbsorbAgent id || (agents.map Prod.fst).contains id) := by
  induction agents generalizing c with
  | nil => simp [load, canAbsorbAgent]
  | cons container rest ih =>
    unfold load at ih ⊢
    rw [List.foldl_cons, ih]
    simp only [canAbsorbAgent, contains_insert, List.map_cons, List.contains_cons]
    cases c.m_canAbsorbAgent.contains id <;> cases (List.map Prod.fst rest).contains id <;>
      by_cases h : id = container.1 <;> simp [h]

/-- The ledger after `load` of containers that agree on the amount of an id. -/
theorem find?_load (agents : List (Nat × α)) (c : AgentAbsorberComponent α) (id : Nat)
    (amount : α) (h : ∀ container ∈ agents, container.1 = id → container.2 = amount) :
    UnorderedMap.find? id (load c agents).m_absorbedAgents =
      if (agents.map Prod.fst).contains id then some amount
      else UnorderedMap.find? id c.m_absorbedAgents := by
  induction agents generalizing c with
  | nil => simp [load]
  | cons container rest ih =>
    unfold load at ih ⊢
    rw [List.foldl_cons, ih _ (fun p hp => h p (by simp [hp]))]
    simp only [List.map_cons, List.contains_cons, UnorderedMap.find?_assign]
    cases (List.map Prod.fst rest).contains id
    · by_cases hid : id = container.1
      · have hamount := h container (by simp) hid.symm
        simp [hid, hamount]
      · simp [hid]
    · simp

/-- C16, as amended: loading the output of `storage()` into a freshly
constructed absorber gives, for every agent id, the same `canAbsorbAgent(id)`;
the same `absorbedAgentAmount(id)` when the id is in the allow-list; and
`absorbedAgentAmount(id) = 0` when it is not, whatever amount was recorded
for it before saving. -/
theorem load_storage_keeps_allowed_amounts [Zero α] (c : AgentAbsorberComponent α)
    (id : Nat) :
    (load fresh (storage c)).canAbsorbAgent id = c.canAbsorbAgent id ∧
    (c.canAbsorbAgent id = true →
      (load fresh (storage c)).absorbedAgentAmount id = c.absorbedAgentAmount id) ∧
    (c.canAbsorbAgent id = false → (load fresh (storage c)).absorbedAgentAmount id = 0) := by
  have hkeys : (storage c).map Prod.fst = c.m_canAbsorbAgent := by
    simp [storage, Function.comp_def]
  have hfind := find?_load (storage c) fresh id (c.absorbedAgentAmount id) (by
    intro container hmem hid
    simp only [storage, List.mem_map] at hmem
    obtain ⟨x, _, rfl⟩ := hmem
    simp only at hid
    rw [hid])
  rw [hkeys] at hfind
  refine ⟨?_, ?_, ?_⟩
  · rw [canAbsorbAgent_load, hkeys]
    simp [canAbsorbAgent, fresh]
  · intro hcan
    unfold canAbsorbAgent at hcan
    rw [hcan] at hfind
    simp only [if_true] at hfind
    conv_lhs => unfold absorbedAgentAmount
    rw [hfind]
  · intro hcan
    unfold canAbsorbAgent at hcan
    rw [hcan] at hfind
    simp only [Bool.false_eq_true, if_false] at hfind
    conv_lhs => unfold absorbedAgentAmount
    rw [hfind]
    rfl

/-- An absorber that allows type 3 and holds 11 of it keeps both through
`storage()` and `load`. -/
theorem load_storage_keeps_allowed_amounts_witness :
    (load fresh (storage (setAbsorbedAgentAmount
      (setCanAbsorbAgent (fresh : AgentAbsorberComponent Int) 3 true) 3 11))).absorbedAgentAmount
        3 = 11 :=
  (load_storage_keeps_allowed_amounts (setAbsorbedAgentAmount
      (setCanAbsorbAgent (fresh : AgentAbsorberComponent Int) 3 true) 3 11) 3).2.1 (by decide)

/-- C16, as stated, fails: an amount of 5 recorded with
`setAbsorbedAgentAmount` for type 7, which is not in the allow-list, reads 0
after `storage()` and `load`. -/
theorem load_storage_drops_unallowed_amount :
    (setAbsorbedAgentAmount (fresh : AgentAbsorberComponent Int) 7 5).absorbedAgentAmount 7 = 5 ∧
    (load fresh (storage
      (setAbsorbedAgentAmount (fresh : AgentAbsorberComponent Int) 7 5))).absorbedAgentAmount
        7 = 0 := by
  decide

end AgentAbsorberComponent

theorem UnorderedMap.mem_of_find? {κ ν : Type} [DecidableEq κ] (k : κ) (v : ν)
    (m : List (κ × ν)) (h : UnorderedMap.find? k m = some v) : (k, v) ∈ m := by
  induction m with
  | nil => simp [UnorderedMap.find?] at h
  | cons p rest ih =>
    obtain ⟨k', v'⟩ := p
    by_cases hk : k' = k
    · subst hk
      simp only [UnorderedMap.find?, if_true, Option.some.injEq] at h
      subst h
      exact List.mem_cons_self _ _
    · simp only [UnorderedMap.find?, hk, if_false] at h
      exact List.mem_cons_of_mem _ (ih h)

/-- An entity whose agent is at or below 0 after the subtraction is handed to
`removeEntity`. -/
theorem AgentLifetimeSystem.mem_removals {α : Type} (milliseconds : Int)
    (entities : List (Nat × AgentComponent α)) (entity : Nat) (agent : AgentComponent α)
    (hmem : (entity, agent) ∈ entities) (h : agent.m_timeToLive - milliseconds ≤ 0) :
    entity ∈ (AgentLifetimeSystem.update milliseconds entities).2 := by
  induction entities with
  | nil => simp at hmem
  | cons entry rest ih =>
    obtain ⟨entity', agent'⟩ := entry
    rcases List.mem_cons.1 hmem with heq | hrest
    · simp only [Prod.mk.injEq] at heq
      obtain ⟨rfl, rfl⟩ := heq
      simp [AgentLifetimeSystem.update, h]
    · have := ih hrest
      by_cases h' : agent'.m_timeToLive - milliseconds ≤ 0
      · simp [AgentLifetimeSystem.update, h', this]
      · simp [AgentLifetimeSystem.update, h', this]

namespace AgentAbsorberSystem

variable {α : Type} [Zero α] [Add α]

/-- An agent whose lifetime is spent is not touched by a manifold. -/
theorem find?_agents_processManifold_of_spent (w : AbsorberWorld α) (c : Nat × Nat) (x : Nat)
    (agent : AgentComponent α) (h : UnorderedMap.find? x w.m_agents = some agent)
    (hspent : agent.m_timeToLive ≤ 0) :
    UnorderedMap.find? x (processManifold w c).m_agents = some agent := by
  rcases processManifold_cases w c with ⟨_, hw⟩ | ⟨ae, be, agent', absorber, _, h2, _, _, h5, hw⟩
  · rw [hw]
    exact h
  · rw [hw]
    simp only [UnorderedMap.find?_modify]
    by_cases hx : x = ae
    · subst hx
      rw [h] at h2
      simp only [Option.some.injEq] at h2
      subst h2
      omega
    · rw [if_neg hx]
      exact h

theorem find?_agents_foldl_of_spent (l : List (Nat × Nat)) (w : AbsorberWorld α) (x : Nat)
    (agent : AgentComponent α) (h : UnorderedMap.find? x w.m_agents = some agent)
    (hspent : agent.m_timeToLive ≤ 0) :
    UnorderedMap.find? x (l.foldl processManifold w).m_agents = some agent := by
  induction l generalizing w with
  | nil => exact h
  | cons c rest ih =>
    exact ih _ (find?_agents_processManifold_of_spent w c x agent h hspent)

/-- The agent picked by a manifold whose guard passes is at 0 afterwards. -/
theorem find?_agents_processManifold_of_absorbs (w : AbsorberWorld α) (c : Nat × Nat)
    (x b : Nat) (hres : resolve w c.1 c.2 = some (x, b)) (habs : absorbs w c = true) :
    ∃ agent, UnorderedMap.find? x w.m_agents = some agent ∧ agent.m_timeToLive > 0 ∧
      UnorderedMap.find? x (processManifold w c).m_agents =
        some { agent with m_timeToLive := 0 } := by
  rcases processManifold_cases w c with ⟨hn, _⟩ | ⟨ae, be, agent, absorber, h1, h2, _, _, h5, hw⟩
  · rw [habs] at hn
    exact Bool.noConfusion hn
  · rw [hres] at h1
    simp only [Option.some.injEq, Prod.mk.injEq] at h1
    obtain ⟨rfl, rfl⟩ := h1
    refine ⟨agent, h2, h5, ?_⟩
    rw [hw]
    simp [UnorderedMap.find?_modify, h2]

theorem resolve_foldl (l : List (Nat × Nat)) (w : AbsorberWorld α) (x y : Nat) :
    resolve (l.foldl processManifold w) x y = resolve w x y := by
  induction l generalizing w with
  | nil => rfl
  | cons c rest ih => rw [List.foldl_cons, ih, resolve_processManifold]

/-- C17: with an elapsed time `dt ≥ 0`, `AgentLifetimeSystem::update(dt)` run
on the agents left by `AgentAbsorberSystem::update` hands to `removeEntity`
every agent entity whose `m_timeToLive` is 0 after the absorber pass; and an
agent picked by a manifold whose guard passes when it is processed, wherever
the manifold stands in the list, is at 0 after the pass, so it is among the
removed entities of the same tick. -/
theorem consumed_agents_removed_same_tick (w : AbsorberWorld α) (dt : Int) (hdt : 0 ≤ dt) :
    (∀ (manifolds : List (Nat × Nat)) (entity : Nat) (agent : AgentComponent α),
      (entity, agent) ∈ (update w manifolds).m_agents → agent.m_timeToLive = 0 →
      entity ∈ (AgentLifetimeSystem.update dt (update w manifolds).m_agents).2) ∧
    (∀ (earlier later : List (Nat × Nat)) (c : Nat × Nat) (entity absorberEntity : Nat),
      resolve w c.1 c.2 = some (entity, absorberEntity) →
      absorbs (update w earlier) c = true →
      (∃ agent, UnorderedMap.find? entity (update w (earlier ++ c :: later)).m_agents =
          some agent ∧ agent.m_timeToLive = 0) ∧
      entity ∈ (AgentLifetimeSystem.update dt
        (update w (earlier ++ c :: later)).m_agents).2) := by
  have hA : ∀ (manifolds : List (Nat × Nat)) (entity : Nat) (agent : AgentComponent α),
      (entity, agent) ∈ (update w manifolds).m_agents → agent.m_timeToLive = 0 →
      entity ∈ (AgentLifetimeSystem.update dt (update w manifolds).m_agents).2 := by
    intro manifolds entity agent hmem hzero
    exact AgentLifetimeSystem.mem_removals dt _ entity agent hmem (by omega)
  refine ⟨hA, ?_⟩
  intro earlier later c entity absorberEntity hres habs
  have hres' : resolve (update w earlier) c.1 c.2 = some (entity, absorberEntity) := by
    unfold update
    rw [resolve_foldl, resolve_clearAbsorbed, hres]
  obtain ⟨agent, _, _, hstep⟩ :=
    find?_agents_processManifold_of_absorbs (update w earlier) c entity absorberEntity hres' habs
  have hfinal : UnorderedMap.find? entity (update w (earlier ++ c :: later)).m_agents =
      some { agent with m_timeToLive := 0 } := by
    have hsplit : update w (earlier ++ c :: later) =
        later.foldl processManifold (processManifold (update w earlier) c) := by
      simp [update, List.foldl_append]
    rw [hsplit]
    exact find?_agents_foldl_of_spent later _ entity _ hstep (le_refl _)
  exact ⟨⟨_, hfinal, rfl⟩, hA _ entity _ (UnorderedMap.mem_of_find? _ _ _ hfinal) rfl⟩

/-- In the sample world the agent 10, absorbed by the absorber 1, is handed to
`removeEntity` by the lifetime pass of the same tick, run with 16 ms. -/
theorem consumed_agents_removed_same_tick_witness :
    10 ∈ (AgentLifetimeSystem.update 16 (update sampleWorld ([] ++ (10, 1) :: [])).m_agents).2 :=
  ((consumed_agents_removed_same_tick sampleWorld 16 (by decide)).2 [] [] (10, 1) 10 1
    (by decide) (by decide)).2

end AgentAbsorberSystem

namespace AgentAbsorberSystem

variable {α : Type}

theorem foldl_processManifold_of_not_absorbs [Zero α] [Add α] (l : List (Nat × Nat)) (w : AbsorberWorld α)
    (h : ∀ c ∈ l, absorbs w c = false) : l.foldl processManifold w = w := by
  induction l with
  | nil => rfl
  | cons c rest ih =>
    rw [List.foldl_cons, processManifold_of_not_absorbs w c (h c (by simp))]
    exact ih (fun c' hc' => h c' (by simp [hc']))

/-- A manifold that picks an agent whose lifetime is spent fails the guard. -/
theorem not_absorbs_of_spent (w : AbsorberWorld α) (c : Nat × Nat) (x b : Nat)
    (agent : AgentComponent α) (hres : resolve w c.1 c.2 = some (x, b))
    (hx : UnorderedMap.find? x w.m_agents = some agent) (hspent : agent.m_timeToLive ≤ 0) :
    absorbs w c = false := by
  rw [Bool.eq_false_iff]
  intro habs
  obtain ⟨x', b', agent', absorber', h1, h2, _, _, h5⟩ := (absorbs_iff w c).1 habs
  rw [hres] at h1
  simp only [Option.some.injEq, Prod.mk.injEq] at h1
  obtain ⟨rfl, rfl⟩ := h1
  rw [hx] at h2
  simp only [Option.some.injEq] at h2
  subst h2
  omega

/-- How a manifold that names an agent entity and an absorber entity, in
either order, is read when the order leaves no doubt. -/
theorem resolve_of_pairing (w : AbsorberWorld α) (c : Nat × Nat) (a b : Nat)
    (ha : containsEntity w.m_agents a = true) (hb : containsEntity w.m_absorbers b = true)
    (hc : c = (a, b) ∨ (c = (b, a) ∧
      ¬ (containsEntity w.m_agents b = true ∧ containsEntity w.m_absorbers a = true))) :
    resolve w c.1 c.2 = some (a, b) := by
  rcases hc with rfl | ⟨rfl, hamb⟩
  · simp [resolve, ha, hb]
  · simp only [resolve]
    rw [if_neg hamb, if_pos ⟨hb, ha⟩]

/-- C18: take an agent entity `a` whose `m_timeToLive` is positive and a
manifold list that pairs it, in either order, first with the absorber `b₀` and
then with further absorbers, all of which allow its type (a manifold listing
the absorber first is read as intended unless the absorber also carries an
agent and `a` also an absorber).  Then `AgentAbsorberSystem::update` gives the
very world that the first manifold alone gives: the ledger of `b₀` holds the
agent's potency (added to the zero of a fresh entry) under the agent's type,
and the ledger of every other absorber entity is empty. -/
theorem first_absorber_takes_the_agent [Zero α] [Add α] (w : AbsorberWorld α) (a b₀ : Nat)
    (agent : AgentComponent α) (absorber₀ : AgentAbsorberComponent α) (c₀ : Nat × Nat)
    (others : List Nat) (contacts : List (Nat × Nat))
    (ha : UnorderedMap.find? a w.m_agents = some agent) (hlive : agent.m_timeToLive > 0)
    (hb₀ : UnorderedMap.find? b₀ w.m_absorbers = some absorber₀)
    (hcan₀ : absorber₀.canAbsorbAgent agent.m_agentId = true)
    (hc₀ : c₀ = (a, b₀) ∨ (c₀ = (b₀, a) ∧
      ¬ (containsEntity w.m_agents b₀ = true ∧ containsEntity w.m_absorbers a = true)))
    (hothers : ∀ b ∈ others, ∃ absorber, UnorderedMap.find? b w.m_absorbers = some absorber ∧
      absorber.canAbsorbAgent agent.m_agentId = true)
    (hcontacts : List.Forall₂ (fun c b => c = (a, b) ∨ (c = (b, a) ∧
      ¬ (containsEntity w.m_agents b = true ∧ containsEntity w.m_absorbers a = true)))
      contacts others) :
    update w (c₀ :: contacts) = update w [c₀] ∧
    (∃ absorber', UnorderedMap.find? b₀ (update w (c₀ :: contacts)).m_absorbers =
        some absorber' ∧
      absorber'.absorbedAgentAmount agent.m_agentId = 0 + agent.m_potency) ∧
    (∀ b absorber', b ≠ b₀ →
      UnorderedMap.find? b (update w (c₀ :: contacts)).m_absorbers = some absorber' →
      absorber'.m_absorbedAgents = []) := by
  have hac : containsEntity w.m_agents a = true := by simp [containsEntity, ha]
  have hbc : containsEntity w.m_absorbers b₀ = true := by simp [containsEntity, hb₀]
  have hres₀ : resolve { w with m_absorbers := clearAbsorbed w.m_absorbers } c₀.1 c₀.2 =
      some (a, b₀) := by
    rw [resolve_clearAbsorbed]
    exact resolve_of_pairing w c₀ a b₀ hac hbc hc₀
  have hb₀' : UnorderedMap.find? b₀ (clearAbsorbed w.m_absorbers) =
      some { absorber₀ with m_absorbedAgents := [] } := by
    simp [find?_clearAbsorbed, hb₀]
  have hstep : update w [c₀] =
      { m_absorbers := UnorderedMap.modify b₀
          (fun x => x.addAbsorbed agent.m_agentId agent.m_potency)
          (clearAbsorbed w.m_absorbers)
        m_agents := UnorderedMap.modify a (fun x => { x with m_timeToLive := 0 }) w.m_agents } := by
    simp only [update, List.foldl_cons, List.foldl_nil]
    rcases processManifold_cases { w with m_absorbers := clearAbsorbed w.m_absorbers } c₀ with
      ⟨hn, _⟩ | ⟨ae, be, agent', absorber', h1, h2, _, _, _, heq⟩
    · rw [(absorbs_iff _ c₀).2 ⟨a, b₀, agent, _, hres₀, ha, hb₀', hcan₀, hlive⟩] at hn
      exact Bool.noConfusion hn
    · rw [hres₀] at h1
      simp only [Option.some.injEq, Prod.mk.injEq] at h1
      obtain ⟨rfl, rfl⟩ := h1
      rw [ha] at h2
      simp only [Option.some.injEq] at h2
      subst h2
      rw [heq]
  have hspent : UnorderedMap.find? a (update w [c₀]).m_agents =
      some { agent with m_timeToLive := 0 } := by
    rw [hstep]
    simp [UnorderedMap.find?_modify, ha]
  have hinert : ∀ c ∈ contacts, absorbs (update w [c₀]) c = false := by
    intro c hc
    obtain ⟨b, hb, hcb⟩ : ∃ b, b ∈ others ∧ (c = (a, b) ∨ (c = (b, a) ∧
        ¬ (containsEntity w.m_agents b = true ∧ containsEntity w.m_absorbers a = true))) := by
      clear hstep hspent
      induction hcontacts with
      | nil => simp at hc
      | @cons c' b' cs bs hcb _ ih =>
        rcases List.mem_cons.1 hc with rfl | hc
        · exact ⟨b', by simp, hcb⟩
        · obtain ⟨b, hb, h⟩ := ih (fun b hb => hothers b (by simp [hb])) hc
          exact ⟨b, by simp [hb], h⟩
    obtain ⟨absorber, hab, _⟩ := hothers b hb
    have hres : resolve (update w [c₀]) c.1 c.2 = some (a, b) := by
      unfold update
      rw [resolve_foldl, resolve_clearAbsorbed]
      exact resolve_of_pairing w c a b hac (by simp [containsEntity, hab]) hcb
    exact not_absorbs_of_spent _ c a b _ hres hspent (le_refl _)
  have hsame : update w (c₀ :: contacts) = update w [c₀] := by
    have hsplit : update w (c₀ :: contacts) = contacts.foldl processManifold (update w [c₀]) := by
      simp [update]
    rw [hsplit]
    exact foldl_processManifold_of_not_absorbs contacts _ hinert
  refine ⟨hsame, ?_, ?_⟩
  · refine ⟨(({ absorber₀ with m_absorbedAgents := [] } :
      AgentAbsorberComponent α)).addAbsorbed agent.m_agentId agent.m_potency, ?_, ?_⟩
    · rw [hsame, hstep]
      simp [UnorderedMap.find?_modify, hb₀']
    · unfold AgentAbsorberComponent.absorbedAgentAmount
      rw [find?_addAbsorbed]
      simp [UnorderedMap.find?]
  · intro b absorber' hne hfind
    rw [hsame, hstep] at hfind
    simp only [UnorderedMap.find?_modify, if_neg hne, find?_clearAbsorbed] at hfind
    cases hw : UnorderedMap.find? b w.m_absorbers with
    | none => simp [hw] at hfind
    | some x =>
      rw [hw] at hfind
      simp only [Option.map_some', Option.some.injEq] at hfind
      rw [← hfind]

/-- The agent 10 touches the absorber 2 and then the absorber 1: the result is
that of the first manifold alone, the absorber 2 holds 5 of type 3 and the
ledger of the absorber 1 is empty. -/
theorem first_absorber_takes_the_agent_witness :
    update twoAbsorberWorld [(10, 2), (1, 10)] = update twoAbsorberWorld [(10, 2)] ∧
    (∃ absorber', UnorderedMap.find? 2
        (update twoAbsorberWorld [(10, 2), (1, 10)]).m_absorbers = some absorber' ∧
      absorber'.absorbedAgentAmount 3 = 5) ∧
    (∀ b absorber', b ≠ 2 →
      UnorderedMap.find? b (update twoAbsorberWorld [(10, 2), (1, 10)]).m_absorbers =
        some absorber' →
      absorber'.m_absorbedAgents = []) :=
  first_absorber_takes_the_agent twoAbsorberWorld 10 2 (sampleAgent 5) ⟨[], [3]⟩ (10, 2) [1]
    [(1, 10)] (by decide) (by decide) (by decide) (by decide) (Or.inl rfl)
    (fun b hb => ⟨⟨[], [3]⟩, by
      simp only [List.mem_singleton] at hb
      subst hb
      decide⟩)
    (List.Forall₂.cons (Or.inr ⟨rfl, by decide⟩) List.Forall₂.nil)

end AgentAbsorberSystem

namespace AgentEmitterSystem

variable {ρ α : Type} [FloatArith α]

/-- One tick of an enabled timed emitter whose accumulator is not negative
after the elapsed time is added. -/
theorem updateEntity_of_enabled (random : RandomSource ρ α) (interval a dt : Int)
    (e : AgentEmitterComponent α) (position : Vector3 α) (g : GameState ρ α)
    (hi : 0 < interval) (hsum : 0 ≤ a + dt) :
    updateEntity random dt e position ⟨interval, a⟩ g =
      (⟨interval, (a + dt) % interval⟩,
        (burst random e position e.m_particlesPerEmission)^[((a + dt) / interval).toNat] g) := by
  have hq : 0 ≤ (a + dt) / interval := Int.ediv_nonneg hsum (by omega)
  have hsplit : a + dt =
      (a + dt) % interval + ((((a + dt) / interval).toNat : Nat) : Int) * interval := by
    rw [Int.toNat_of_nonneg hq, mul_comm]
    exact (Int.emod_add_ediv (a + dt) interval).symm
  have := emitWhile_of_intervals random e position interval ((a + dt) % interval) hi
    (Int.emod_nonneg _ (by omega)) (Int.emod_lt_of_pos _ hi) ((a + dt) / interval).toNat g
  rw [← hsplit] at this
  simpa [updateEntity] using this

/-- C19: for a timed emitter with `m_emitInterval = interval > 0` and an
accumulator `a ≥ 0`, a tick with `dt₁ ≥ 0` followed by a tick with `dt₂ ≥ 0`
leaves the same timed emitter and the same engine state, hence the same
particles, as one tick with `dt₁ + dt₂`; the numbers of bursts of the two ticks
add up to the number of bursts of the single tick, and the accumulator ends at
`(a + dt₁ + dt₂) mod interval`. -/
theorem update_two_ticks_eq_one_tick (random : RandomSource ρ α) (interval a dt₁ dt₂ : Int)
    (e : AgentEmitterComponent α) (position : Vector3 α) (g : GameState ρ α)
    (hi : 0 < interval) (ha : 0 ≤ a) (h₁ : 0 ≤ dt₁) (h₂ : 0 ≤ dt₂) :
    updateEntity random dt₂ e position
        (updateEntity random dt₁ e position ⟨interval, a⟩ g).1
        (updateEntity random dt₁ e position ⟨interval, a⟩ g).2 =
      updateEntity random (dt₁ + dt₂) e position ⟨interval, a⟩ g ∧
    ((a + dt₁) / interval).toNat + (((a + dt₁) % interval + dt₂) / interval).toNat =
      ((a + (dt₁ + dt₂)) / interval).toNat ∧
    (updateEntity random (dt₁ + dt₂) e position ⟨interval, a⟩ g).1 =
      ⟨interval, (a + (dt₁ + dt₂)) % interval⟩ := by
  have hr0 : 0 ≤ (a + dt₁) % interval := Int.emod_nonneg _ (by omega)
  have hq1 : 0 ≤ (a + dt₁) / interval := Int.ediv_nonneg (by omega) (by omega)
  have hq2 : 0 ≤ ((a + dt₁) % interval + dt₂) / interval :=
    Int.ediv_nonneg (by omega) (by omega)
  have hdecomp : a + (dt₁ + dt₂) =
      ((a + dt₁) % interval + dt₂) + ((a + dt₁) / interval) * interval := by
    have := Int.emod_add_ediv (a + dt₁) interval
    rw [mul_comm] at this
    omega
  have hmod : (a + (dt₁ + dt₂)) % interval = ((a + dt₁) % interval + dt₂) % interval := by
    rw [hdecomp, Int.add_mul_emod_self]
  have hdiv : (a + (dt₁ + dt₂)) / interval =
      ((a + dt₁) % interval + dt₂) / interval + (a + dt₁) / interval := by
    rw [hdecomp, Int.add_mul_ediv_right _ _ (by omega)]
  have hcount : ((a + dt₁) / interval).toNat +
      (((a + dt₁) % interval + dt₂) / interval).toNat =
      ((a + (dt₁ + dt₂)) / interval).toNat := by
    rw [hdiv]
    omega
  have hone := updateEntity_of_enabled random interval a (dt₁ + dt₂) e position g hi (by omega)
  refine ⟨?_, hcount, ?_⟩
  · rw [updateEntity_of_enabled random interval a dt₁ e position g hi (by omega)]
    simp only
    rw [updateEntity_of_enabled random interval _ dt₂ e position _ hi (by omega), hone,
      ← hcount, hmod, Nat.add_comm, Function.iterate_add_apply]
  · rw [hone]

/-- An emitter with interval 100 ticked with 250 and then with 100 ends, as
with one tick of 350, at an accumulator of 50 after 3 bursts in all. -/
theorem update_two_ticks_eq_one_tick_witness :
    updateEntity lowestDraw 100 sampleEmitter ⟨0, 0, 0⟩
        (updateEntity lowestDraw 250 sampleEmitter ⟨0, 0, 0⟩ ⟨100, 0⟩ sampleGame).1
        (updateEntity lowestDraw 250 sampleEmitter ⟨0, 0, 0⟩ ⟨100, 0⟩ sampleGame).2 =
      updateEntity lowestDraw (250 + 100) sampleEmitter ⟨0, 0, 0⟩ ⟨100, 0⟩ sampleGame ∧
    (updateEntity lowestDraw (250 + 100) sampleEmitter ⟨0, 0, 0⟩ ⟨100, 0⟩ sampleGame).1 =
      ⟨100, 50⟩ :=
  ⟨(update_two_ticks_eq_one_tick lowestDraw 100 0 250 100 sampleEmitter ⟨0, 0, 0⟩ sampleGame
      (by decide) (by decide) (by decide) (by decide)).1,
   (update_two_ticks_eq_one_tick lowestDraw 100 0 250 100 sampleEmitter ⟨0, 0, 0⟩ sampleGame
      (by decide) (by decide) (by decide) (by decide)).2.2⟩

end AgentEmitterSystem

namespace AgentRegistry

/-- C20, as amended: in every registry with at least one entry, a call of
`getAgentDisplayName` or `getAgentInternalName` with the id equal to the
number of entries passes the bounds check and returns the name held by the
last entry of the sequence, at index `size - 1`, which is inside the sequence;
nothing past the end is read. -/
theorem lookup_by_size_reads_last_entry (s : RegistryState)
    (h : s.agentRegistry.length ≥ 1) :
    ¬ (s.agentRegistry.length > s.agentRegistry.length) ∧
    ∃ entry, s.agentRegistry.getLast? = some entry ∧
      s.agentRegistry[s.agentRegistry.length - 1]? = some entry ∧
      getAgentDisplayName s s.agentRegistry.length = .returned entry.displayName ∧
      getAgentInternalName s s.agentRegistry.length = .returned entry.internalName := by
  refine ⟨by omega, ?_⟩
  have hlt : s.agentRegistry.length - 1 < s.agentRegistry.length := by omega
  refine ⟨s.agentRegistry[s.agentRegistry.length - 1], ?_, ?_, ?_, ?_⟩
  · rw [List.getLast?_eq_getElem?, List.getElem?_eq_getElem hlt]
  · exact List.getElem?_eq_getElem hlt
  · have h0 : (0 : Int) ≤ ((s.agentRegistry.length : Nat) : Int) - 1 := by omega
    have h1 : (((s.agentRegistry.length : Nat) : Int) - 1).toNat =
        s.agentRegistry.length - 1 := by omega
    simp [getAgentDisplayName, vectorIndex, h0, h1, List.getElem?_eq_getElem hlt]
  · have h0 : (0 : Int) ≤ ((s.agentRegistry.length : Nat) : Int) - 1 := by omega
    have h1 : (((s.agentRegistry.length : Nat) : Int) - 1).toNat =
        s.agentRegistry.length - 1 := by omega
    simp [getAgentInternalName, vectorIndex, h0, h1, List.getElem?_eq_getElem hlt]

/-- In the registry that holds "oxygen" and "glucose", the id 2, equal to the
size, gives the names of the second and last entry. -/
theorem lookup_by_size_reads_last_entry_witness :
    ∃ entry, sampleRegistry.agentRegistry.getLast? = some entry ∧
      sampleRegistry.agentRegistry[2 - 1]? = some entry ∧
      getAgentDisplayName sampleRegistry 2 = .returned entry.displayName ∧
      getAgentInternalName sampleRegistry 2 = .returned entry.internalName :=
  (lookup_by_size_reads_last_entry sampleRegistry (by decide)).2

/-- C20, as stated, fails: in the registry that holds only "oxygen", the id 1,
equal to the size, returns the names of that entry; the lookups do not leave
the entry sequence. -/
theorem lookup_by_size_is_in_bounds :
    (registerAgentType empty "oxygen" "Oxygen").2.agentRegistry.length = 1 ∧
    getAgentDisplayName (registerAgentType empty "oxygen" "Oxygen").2 1 = .returned "Oxygen" ∧
    getAgentInternalName (registerAgentType empty "oxygen" "Oxygen").2 1 = .returned "oxygen" ∧
    getAgentDisplayName (registerAgentType empty "oxygen" "Oxygen").2 1 ≠
      .undefinedBehaviour := by
  decide

end AgentRegistry

namespace AgentRegistry

/-- What every `registerAgentType` call keeps true of the two statics. -/
theorem registerAgentType_consistent (s : RegistryState) (n d : String)
    (hlen : s.agentRegistryMap.length = s.agentRegistry.length)
    (hnodup : (s.agentRegistry.map AgentRegistryEntry.internalName).Nodup)
    (hfwd : ∀ i entry, s.agentRegistry[i]? = some entry →
      UnorderedMap.find? entry.internalName s.agentRegistryMap = some (i + 1))
    (hrange : ∀ name id, UnorderedMap.find? name s.agentRegistryMap = some id →
      1 ≤ id ∧ id ≤ s.agentRegistry.length) :
    (registerAgentType s n d).2.agentRegistryMap.length =
      (registerAgentType s n d).2.agentRegistry.length ∧
    ((registerAgentType s n d).2.agentRegistry.map AgentRegistryEntry.internalName).Nodup ∧
    (∀ i entry, (registerAgentType s n d).2.agentRegistry[i]? = some entry →
      UnorderedMap.find? entry.internalName (registerAgentType s n d).2.agentRegistryMap =
        some (i + 1)) ∧
    (∀ name id, UnorderedMap.find? name (registerAgentType s n d).2.agentRegistryMap = some id →
      1 ≤ id ∧ id ≤ (registerAgentType s n d).2.agentRegistry.length) := by
  cases hf : UnorderedMap.find? n s.agentRegistryMap with
  | some v =>
    rw [registerAgentType_of_present s n d v hf]
    exact ⟨hlen, hnodup, hfwd, hrange⟩
  | none =>
    rw [registerAgentType_of_fresh s n d hf]
    refine ⟨by simp [hlen], ?_, ?_, ?_⟩
    · simp only [List.map_append, List.map_cons, List.map_nil]
      rw [List.nodup_append]
      refine ⟨hnodup, List.nodup_singleton _, ?_⟩
      intro name hname hnew
      simp only [List.mem_singleton] at hnew
      subst hnew
      obtain ⟨entry, hentry, hnameeq⟩ := List.mem_map.1 hname
      obtain ⟨i, hi⟩ := List.getElem?_of_mem hentry
      have := hfwd i entry hi
      rw [hnameeq, hf] at this
      exact Option.noConfusion this
    · intro i entry hi
      simp only at hi ⊢
      by_cases hlt : i < s.agentRegistry.length
      · rw [List.getElem?_append_left hlt] at hi
        simp [UnorderedMap.find?_append, hfwd i entry hi]
      · have hle : s.agentRegistry.length ≤ i := by omega
        rw [List.getElem?_append_right hle] at hi
        have hzero : i - s.agentRegistry.length = 0 := by
          by_contra hne
          have hpos : 0 < i - s.agentRegistry.length := by omega
          have hnone : ([(⟨n, d⟩ : AgentRegistryEntry)])[i - s.agentRegistry.length]? = none :=
            List.getElem?_eq_none (by simp; omega)
          rw [hnone] at hi
          exact Option.noConfusion hi
        rw [hzero] at hi
        simp only [List.getElem?_cons_zero, Option.some.injEq] at hi
        subst hi
        have hi' : i = s.agentRegistry.length := by omega
        simp [UnorderedMap.find?_append, hf, UnorderedMap.find?, hi']
    · intro name id hfind
      simp only at hfind ⊢
      rw [UnorderedMap.find?_append] at hfind
      cases hold : UnorderedMap.find? name s.agentRegistryMap with
      | some v =>
        rw [hold] at hfind
        simp only [Option.some.injEq] at hfind
        subst hfind
        have := hrange name v hold
        simp only [List.length_append, List.length_singleton]
        omega
      | none =>
        rw [hold] at hfind
        simp only [UnorderedMap.find?] at hfind
        split at hfind
        · simp only [Option.some.injEq] at hfind
          simp only [List.length_append, List.length_singleton]
          omega
        · exact Option.noConfusion hfind

/-- C23: in every state reached from the empty registry by a sequence of
`registerAgentType` calls (returning or throwing), the name map and the entry
sequence have the same size, the internal names of the entries are pairwise
distinct, the name map sends the internal name of the entry at index `i` to
`i + 1`, and every id of the name map lies between 1 and the number of
entries, so it is never `NULL_AGENT`. -/
theorem registry_consistent (calls : List (String × String)) :
    (registerAll empty calls).2.agentRegistryMap.length =
      (registerAll empty calls).2.agentRegistry.length ∧
    ((registerAll empty calls).2.agentRegistry.map AgentRegistryEntry.internalName).Nodup ∧
    (∀ i entry, (registerAll empty calls).2.agentRegistry[i]? = some entry →
      UnorderedMap.find? entry.internalName (registerAll empty calls).2.agentRegistryMap =
        some (i + 1)) ∧
    (∀ name id, UnorderedMap.find? name (registerAll empty calls).2.agentRegistryMap = some id →
      1 ≤ id ∧ id ≤ (registerAll empty calls).2.agentRegistry.length ∧ id ≠ NULL_AGENT) := by
  have hgen : ∀ (calls : List (String × String)) (s : RegistryState),
      s.agentRegistryMap.length = s.agentRegistry.length →
      (s.agentRegistry.map AgentRegistryEntry.internalName).Nodup →
      (∀ i entry, s.agentRegistry[i]? = some entry →
        UnorderedMap.find? entry.internalName s.agentRegistryMap = some (i + 1)) →
      (∀ name id, UnorderedMap.find? name s.agentRegistryMap = some id →
        1 ≤ id ∧ id ≤ s.agentRegistry.length) →
      (registerAll s calls).2.agentRegistryMap.length =
        (registerAll s calls).2.agentRegistry.length ∧
      ((registerAll s calls).2.agentRegistry.map AgentRegistryEntry.internalName).Nodup ∧
      (∀ i entry, (registerAll s calls).2.agentRegistry[i]? = some entry →
        UnorderedMap.find? entry.internalName (registerAll s calls).2.agentRegistryMap =
          some (i + 1)) ∧
      (∀ name id, UnorderedMap.find? name (registerAll s calls).2.agentRegistryMap = some id →
        1 ≤ id ∧ id ≤ (registerAll s calls).2.agentRegistry.length) := by
    intro calls
    induction calls with
    | nil => exact fun s h1 h2 h3 h4 => ⟨h1, h2, h3, h4⟩
    | cons c rest ih =>
      intro s h1 h2 h3 h4
      obtain ⟨n, d⟩ := c
      obtain ⟨k1, k2, k3, k4⟩ := registerAgentType_consistent s n d h1 h2 h3 h4
      exact ih (registerAgentType s n d).2 k1 k2 k3 k4
  obtain ⟨r1, r2, r3, r4⟩ := hgen calls empty rfl (by simp [empty])
    (by intro i entry hi; simp [empty] at hi)
    (by intro name id hfind; simp [empty, UnorderedMap.find?] at hfind)
  refine ⟨r1, r2, r3, fun name id hfind => ?_⟩
  obtain ⟨hlo, hhi⟩ := r4 name id hfind
  refine ⟨hlo, hhi, ?_⟩
  unfold NULL_AGENT
  omega

/-- After "oxygen", "glucose" and a rejected second "oxygen", the entry at
index 1 is "glucose" and the name map sends it to 2. -/
theorem registry_consistent_witness :
    UnorderedMap.find? "glucose"
      (registerAll empty
        [("oxygen", "Oxygen"), ("glucose", "Glucose"), ("oxygen", "O2")]).2.agentRegistryMap =
      some (1 + 1) :=
  (registry_consistent [("oxygen", "Oxygen"), ("glucose", "Glucose"), ("oxygen", "O2")]).2.2.1
    1 ⟨"glucose", "Glucose"⟩ (by decide)

end AgentRegistry

namespace AgentAbsorberSystem

variable {α : Type}

/-- When no entity is in both filters, the two branches pick the same agent
and the same absorber for a manifold and for the manifold with its bodies
swapped. -/
theorem resolve_swap (w : AbsorberWorld α)
    (hroles : ∀ entity, ¬ (containsEntity w.m_agents entity = true ∧
      containsEntity w.m_absorbers entity = true)) (x y : Nat) :
    resolve w y x = resolve w x y := by
  unfold resolve
  by_cases h1 : containsEntity w.m_agents x = true ∧ containsEntity w.m_absorbers y = true
  · have h2 : ¬ (containsEntity w.m_agents y = true ∧ containsEntity w.m_absorbers x = true) :=
      fun h => hroles x ⟨h1.1, h.2⟩
    rw [if_pos h1, if_neg h2, if_pos ⟨h1.2, h1.1⟩]
  · rw [if_neg h1]
    by_cases h2 : containsEntity w.m_agents y = true ∧ containsEntity w.m_absorbers x = true
    · rw [if_pos h2, if_pos ⟨h2.2, h2.1⟩]
    · have h3 : ¬ (containsEntity w.m_absorbers y = true ∧ containsEntity w.m_agents x = true) :=
        fun h => h1 ⟨h.2, h.1⟩
      have h4 : ¬ (containsEntity w.m_absorbers x = true ∧ containsEntity w.m_agents y = true) :=
        fun h => h2 ⟨h.2, h.1⟩
      rw [if_neg h2, if_neg h3, if_neg h4]

/-- The body of the manifold loop depends on the manifold only through the
pair picked by the two branches. -/
theorem processManifold_congr [Zero α] [Add α] (w : AbsorberWorld α) (c c' : Nat × Nat)
    (h : resolve w c.1 c.2 = resolve w c'.1 c'.2) :
    processManifold w c = processManifold w c' := by
  unfold processManifold
  rw [h]

/-- C22: in a world in which no entity is both in the agent filter and in the
absorber filter, replacing a manifold `(x, y)` of the list, wherever it
stands, by `(y, x)` leaves the result of `AgentAbsorberSystem::update`
unchanged.  In the world in which the entities 1 and 2 carry both components
the first-listed body is taken as the agent and the result depends on the
order: the manifolds `(1, 2)` and `(2, 1)` give different worlds. -/
theorem update_orientation_irrelevant [Zero α] [Add α] (w : AbsorberWorld α)
    (hroles : ∀ entity, ¬ (containsEntity w.m_agents entity = true ∧
      containsEntity w.m_absorbers entity = true))
    (earlier later : List (Nat × Nat)) (x y : Nat) :
    update w (earlier ++ (y, x) :: later) = update w (earlier ++ (x, y) :: later) ∧
    update dualRoleWorld [(1, 2)] ≠ update dualRoleWorld [(2, 1)] := by
  refine ⟨?_, by decide⟩
  simp only [update, List.foldl_append, List.foldl_cons]
  congr 1
  apply processManifold_congr
  simp only [resolve_foldl, resolve_clearAbsorbed]
  exact resolve_swap w hroles x y

/-- In the sample world (absorber 1, agents 10 and 11) the manifold `(1, 11)`
may be reported as `(11, 1)`. -/
theorem update_orientation_irrelevant_witness :
    update sampleWorld ([(10, 1)] ++ (1, 11) :: []) =
      update sampleWorld ([(10, 1)] ++ (11, 1) :: []) :=
  (update_orientation_irrelevant sampleWorld (by
    intro entity h
    have h1 : entity = 1 := by
      by_contra hne
      have hne' : ¬ 1 = entity := fun e => hne e.symm
      have := h.2
      simp [sampleWorld, containsEntity, UnorderedMap.find?, hne'] at this
    subst h1
    exact absurd h.1 (by decide)) [(10, 1)] [] 11 1).1

end AgentAbsorberSystem

namespace UnorderedMap

variable {κ ν : Type} [DecidableEq κ]

theorem map_fst_modify (k : κ) (f : ν → ν) (m : List (κ × ν)) :
    (modify k f m).map Prod.fst = m.map Prod.fst := by
  induction m with
  | nil => rfl
  | cons p rest ih =>
    obtain ⟨k', v⟩ := p
    by_cases h : k' = k
    · simp [modify, h]
    · simp [modify, h, ih]

theorem mem_modify (k : κ) (f : ν → ν) (m : List (κ × ν)) (p : κ × ν)
    (h : p ∈ modify k f m) : p ∈ m ∨ ∃ v, find? k m = some v ∧ p = (k, f v) := by
  induction m with
  | nil => simp [modify] at h
  | cons q rest ih =>
    obtain ⟨k', v⟩ := q
    by_cases hk : k' = k
    · subst hk
      simp only [modify, if_true, List.mem_cons] at h
      rcases h with rfl | h
      · exact Or.inr ⟨v, by simp [find?], rfl⟩
      · exact Or.inl (List.mem_cons_of_mem _ h)
    · simp only [modify, hk, if_false, List.mem_cons] at h
      rcases h with rfl | h
      · exact Or.inl (List.mem_cons_self _ _)
      · rcases ih h with h' | ⟨v', hv', rfl⟩
        · exact Or.inl (List.mem_cons_of_mem _ h')
        · exact Or.inr ⟨v', by simp [find?, hk, hv'], rfl⟩

/-- Replacing the value under a key changes a sum over the values by what the
replacement adds to the summand. -/
theorem sum_modify {α : Type} [AddCommMonoid α] (k : κ) (g : ν → ν) (f : ν → α) (p : α)
    (m : List (κ × ν)) (v : ν) (hfind : find? k m = some v) (hg : f (g v) = f v + p) :
    ((modify k g m).map fun entry => f entry.2).sum =
      (m.map fun entry => f entry.2).sum + p := by
  induction m with
  | nil => simp [find?] at hfind
  | cons q rest ih =>
    obtain ⟨k', v'⟩ := q
    by_cases hk : k' = k
    · subst hk
      simp only [find?, if_true, Option.some.injEq] at hfind
      subst hfind
      simp only [modify, if_true, List.map_cons, List.sum_cons, hg]
      rw [add_assoc, add_comm p, ← add_assoc]
    · simp only [find?, hk, if_false] at hfind
      simp only [modify, hk, if_false, List.map_cons, List.sum_cons, ih hfind]
      rw [add_assoc]

end UnorderedMap

namespace AgentAbsorberSystem

variable {α : Type}

/-- How the pass may change an agent entry: not at all, or from a positive
`m_timeToLive` to 0 with the other members kept. -/
theorem rel_modify_agents (before m : List (Nat × AgentComponent α)) (x : Nat)
    (agent : AgentComponent α)
    (hrel : List.Forall₂ (fun b a : Nat × AgentComponent α => a.1 = b.1 ∧
      (a.2 = b.2 ∨ (b.2.m_timeToLive > 0 ∧ a.2 = { b.2 with m_timeToLive := 0 }))) before m)
    (hfind : UnorderedMap.find? x m = some agent) (hlive : agent.m_timeToLive > 0) :
    List.Forall₂ (fun b a : Nat × AgentComponent α => a.1 = b.1 ∧
      (a.2 = b.2 ∨ (b.2.m_timeToLive > 0 ∧ a.2 = { b.2 with m_timeToLive := 0 }))) before
      (UnorderedMap.modify x (fun a => { a with m_timeToLive := 0 }) m) := by
  induction hrel with
  | nil => exact List.Forall₂.nil
  | @cons b a bs as hba _ ih =>
    obtain ⟨ka, va⟩ := a
    by_cases hk : ka = x
    · subst hk
      simp only [UnorderedMap.find?, if_true, Option.some.injEq] at hfind
      subst hfind
      simp only [UnorderedMap.modify, if_true]
      refine List.Forall₂.cons ⟨hba.1, ?_⟩ (by assumption)
      rcases hba.2 with h | ⟨_, h⟩
      · simp only at h
        right
        exact ⟨h ▸ hlive, by rw [h]⟩
      · simp only at h
        rw [h] at hlive
        simp at hlive
    · simp only [UnorderedMap.find?, hk, if_false] at hfind
      simp only [UnorderedMap.modify, hk, if_false]
      exact List.Forall₂.cons hba (ih hfind)

theorem rel_foldl_processManifold [Zero α] [Add α] (before : List (Nat × AgentComponent α))
    (l : List (Nat × Nat)) (w : AbsorberWorld α)
    (hrel : List.Forall₂ (fun b a : Nat × AgentComponent α => a.1 = b.1 ∧
      (a.2 = b.2 ∨ (b.2.m_timeToLive > 0 ∧ a.2 = { b.2 with m_timeToLive := 0 })))
      before w.m_agents) :
    List.Forall₂ (fun b a : Nat × AgentComponent α => a.1 = b.1 ∧
      (a.2 = b.2 ∨ (b.2.m_timeToLive > 0 ∧ a.2 = { b.2 with m_timeToLive := 0 })))
      before (l.foldl processManifold w).m_agents := by
  induction l generalizing w with
  | nil => exact hrel
  | cons c rest ih =>
    apply ih
    rcases processManifold_cases w c with ⟨_, hw⟩ | ⟨ae, be, agent, absorber, _, h2, _, _, h5, hw⟩
    · rw [hw]
      exact hrel
    · rw [hw]
      exact rel_modify_agents before w.m_agents ae agent hrel h2 h5

end AgentAbsorberSystem

namespace AgentAbsorberSystem

variable {α : Type}

/-- The statement `m_absorbedAgents[id] += potency` raises the sum of the
ledger by the potency. -/
theorem sum_addAbsorbed [AddCommMonoid α] (c : AgentAbsorberComponent α) (id : Nat)
    (potency : α) :
    ((c.addAbsorbed id potency).m_absorbedAgents.map Prod.snd).sum =
      (c.m_absorbedAgents.map Prod.snd).sum + potency := by
  unfold AgentAbsorberComponent.addAbsorbed
  cases h : UnorderedMap.find? id c.m_absorbedAgents with
  | none => simp
  | some v =>
    simp only
    exact UnorderedMap.sum_modify id (fun v => v + potency) (fun v => v) potency
      c.m_absorbedAgents v h rfl

/-- The statement keeps the keys of the ledger pairwise distinct. -/
theorem nodup_addAbsorbed [Zero α] [Add α] (c : AgentAbsorberComponent α) (id : Nat)
    (potency : α) (h : (c.m_absorbedAgents.map Prod.fst).Nodup) :
    ((c.addAbsorbed id potency).m_absorbedAgents.map Prod.fst).Nodup := by
  unfold AgentAbsorberComponent.addAbsorbed
  cases hf : UnorderedMap.find? id c.m_absorbedAgents with
  | none =>
    simp only [List.map_append, List.map_cons, List.map_nil]
    rw [List.nodup_append]
    refine ⟨h, List.nodup_singleton _, ?_⟩
    intro k hk hk'
    simp only [List.mem_singleton] at hk'
    subst hk'
    exact (UnorderedMap.find?_eq_none_iff k _).1 hf hk
  | some v =>
    simp only [UnorderedMap.map_fst_modify]
    exact h

/-- The sum of the potencies of the agents that went from a positive
`m_timeToLive` to 0 grows by the potency of an agent that is set to 0. -/
theorem consumed_sum_modify [AddCommMonoid α] (before m : List (Nat × AgentComponent α))
    (x : Nat) (agent : AgentComponent α)
    (hrel : List.Forall₂ (fun b a : Nat × AgentComponent α => a.1 = b.1 ∧
      (a.2 = b.2 ∨ (b.2.m_timeToLive > 0 ∧ a.2 = { b.2 with m_timeToLive := 0 }))) before m)
    (hfind : UnorderedMap.find? x m = some agent) (hlive : agent.m_timeToLive > 0) :
    (((before.zip (UnorderedMap.modify x (fun a => { a with m_timeToLive := 0 }) m)).filter
        fun p => decide (p.1.2.m_timeToLive > 0 ∧ p.2.2.m_timeToLive = 0)).map
        fun p => p.1.2.m_potency).sum =
      (((before.zip m).filter
        fun p => decide (p.1.2.m_timeToLive > 0 ∧ p.2.2.m_timeToLive = 0)).map
        fun p => p.1.2.m_potency).sum + agent.m_potency := by
  induction hrel with
  | nil => simp [UnorderedMap.find?] at hfind
  | @cons b a bs as hba _ ih =>
    obtain ⟨ka, va⟩ := a
    by_cases hk : ka = x
    · subst hk
      simp only [UnorderedMap.find?, if_true, Option.some.injEq] at hfind
      subst hfind
      have hva : va = b.2 := by
        rcases hba.2 with h | ⟨_, h⟩
        · exact h
        · simp only at h
          rw [h] at hlive
          simp at hlive
      subst hva
      have hnot : ¬ b.2.m_timeToLive = 0 := by omega
      simp only [UnorderedMap.modify, if_true, List.zip_cons_cons, List.filter_cons, hlive,
        hnot, and_false, and_true, decide_True, decide_False, if_true, List.map_cons,
        List.sum_cons, Bool.false_eq_true, if_false]
      rw [add_comm]
    · simp only [UnorderedMap.find?, hk, if_false] at hfind
      simp only [UnorderedMap.modify, hk, if_false, List.zip_cons_cons, List.filter_cons]
      by_cases hc : b.2.m_timeToLive > 0 ∧ va.m_timeToLive = 0
      · simp only [hc, and_self, decide_True, if_true, List.map_cons, List.sum_cons, ih hfind]
        rw [add_assoc]
      · simp only [hc, decide_False, Bool.false_eq_true, if_false, ih hfind]

theorem consumed_sum_self [AddCommMonoid α] (agents : List (Nat × AgentComponent α)) :
    (((agents.zip agents).filter
        fun p => decide (p.1.2.m_timeToLive > 0 ∧ p.2.2.m_timeToLive = 0)).map
        fun p => p.1.2.m_potency).sum = 0 := by
  induction agents with
  | nil => rfl
  | cons a rest ih =>
    have hnot : ¬ (a.2.m_timeToLive > 0 ∧ a.2.m_timeToLive = 0) := by omega
    simp only [List.zip_cons_cons, List.filter_cons, hnot, decide_False, Bool.false_eq_true,
      if_false, ih]

theorem ledger_sum_clearAbsorbed [AddCommMonoid α]
    (absorbers : List (Nat × AgentAbsorberComponent α)) :
    ((clearAbsorbed absorbers).map
      fun entry => (entry.2.m_absorbedAgents.map Prod.snd).sum).sum = 0 := by
  induction absorbers with
  | nil => rfl
  | cons a rest ih =>
    unfold clearAbsorbed at ih ⊢
    simp only [List.map_cons, List.map_nil, List.sum_nil, List.sum_cons, ih, add_zero]

end AgentAbsorberSystem

namespace AgentAbsorberSystem

variable {α : Type}

/-- The manifold loop keeps the sum of all ledgers equal to the sum of the
potencies of the agents that went from a positive `m_timeToLive` to 0. -/
theorem conservation_foldl [AddCommMonoid α] (before : List (Nat × AgentComponent α))
    (l : List (Nat × Nat)) (w : AbsorberWorld α)
    (hrel : List.Forall₂ (fun b a : Nat × AgentComponent α => a.1 = b.1 ∧
      (a.2 = b.2 ∨ (b.2.m_timeToLive > 0 ∧ a.2 = { b.2 with m_timeToLive := 0 })))
      before w.m_agents)
    (hsum : (w.m_absorbers.map fun entry => (entry.2.m_absorbedAgents.map Prod.snd).sum).sum =
      (((before.zip w.m_agents).filter
        fun p => decide (p.1.2.m_timeToLive > 0 ∧ p.2.2.m_timeToLive = 0)).map
        fun p => p.1.2.m_potency).sum) :
    ((l.foldl processManifold w).m_absorbers.map
        fun entry => (entry.2.m_absorbedAgents.map Prod.snd).sum).sum =
      (((before.zip (l.foldl processManifold w).m_agents).filter
        fun p => decide (p.1.2.m_timeToLive > 0 ∧ p.2.2.m_timeToLive = 0)).map
        fun p => p.1.2.m_potency).sum := by
  induction l generalizing w with
  | nil => exact hsum
  | cons c rest ih =>
    rcases processManifold_cases w c with
      ⟨_, hw⟩ | ⟨ae, be, agent, absorber, _, h2, h3, _, h5, hw⟩
    · rw [List.foldl_cons, hw]
      exact ih w hrel hsum
    · rw [List.foldl_cons]
      apply ih
      · rw [hw]
        exact rel_modify_agents before w.m_agents ae agent hrel h2 h5
      · rw [hw]
        simp only
        rw [consumed_sum_modify before w.m_agents ae agent hrel h2 h5, ← hsum]
        exact UnorderedMap.sum_modify be
          (fun a => a.addAbsorbed agent.m_agentId agent.m_potency)
          (fun a => (a.m_absorbedAgents.map Prod.snd).sum) agent.m_potency w.m_absorbers
          absorber h3 (sum_addAbsorbed absorber agent.m_agentId agent.m_potency)

/-- The manifold loop keeps the keys of every ledger pairwise distinct. -/
theorem nodup_foldl [Zero α] [Add α] (l : List (Nat × Nat)) (w : AbsorberWorld α)
    (h : ∀ entry ∈ w.m_absorbers, (entry.2.m_absorbedAgents.map Prod.fst).Nodup) :
    ∀ entry ∈ (l.foldl processManifold w).m_absorbers,
      (entry.2.m_absorbedAgents.map Prod.fst).Nodup := by
  induction l generalizing w with
  | nil => exact h
  | cons c rest ih =>
    rw [List.foldl_cons]
    apply ih
    rcases processManifold_cases w c with
      ⟨_, hw⟩ | ⟨ae, be, agent, absorber, _, _, h3, _, _, hw⟩
    · rw [hw]
      exact h
    · rw [hw]
      intro entry hentry
      rcases UnorderedMap.mem_modify be _ w.m_absorbers entry hentry with
        hold | ⟨v, hv, rfl⟩
      · exact h entry hold
      · exact nodup_addAbsorbed v _ _ (h _ (UnorderedMap.mem_of_find? be v _ hv))

end AgentAbsorberSystem

namespace AgentAbsorberSystem

variable {α : Type}

/-- The body of the manifold loop leaves the world as it is and credits
nothing, or it credits one absorber with the potency of one live agent and
sets that agent to 0. -/
theorem credit_cases [Zero α] [Add α] (w : AbsorberWorld α) (c : Nat × Nat) :
    (credit w c = none ∧ processManifold w c = w) ∨
    ∃ agentEntity absorberEntity agent absorber,
      UnorderedMap.find? agentEntity w.m_agents = some agent ∧
      UnorderedMap.find? absorberEntity w.m_absorbers = some absorber ∧
      agent.m_timeToLive > 0 ∧
      credit w c = some (absorberEntity, agentEntity, agent.m_agentId, agent.m_potency) ∧
      processManifold w c =
        { m_absorbers := UnorderedMap.modify absorberEntity
            (fun a => a.addAbsorbed agent.m_agentId agent.m_potency) w.m_absorbers
          m_agents := UnorderedMap.modify agentEntity
            (fun a => { a with m_timeToLive := 0 }) w.m_agents } := by
  unfold processManifold credit
  cases hres : resolve w c.1 c.2 with
  | none => left; simp
  | some p =>
    obtain ⟨ae, be⟩ := p
    cases hag : UnorderedMap.find? ae w.m_agents with
    | none => left; simp [hag]
    | some agent =>
      cases hab : UnorderedMap.find? be w.m_absorbers with
      | none => left; simp [hag, hab]
      | some absorber =>
        by_cases hg : absorber.canAbsorbAgent agent.m_agentId = true ∧ agent.m_timeToLive > 0
        · right
          exact ⟨ae, be, agent, absorber, hag, hab, hg.2, by simp [hag, hab, hg],
            by simp [hag, hab, hg]⟩
        · left
          simp only [hag, hab, hg, if_false, and_self]

/-- A ledger entry of another type is not touched by
`m_absorbedAgents[id] += potency`. -/
theorem find?_addAbsorbed_ne [Zero α] [Add α] (c : AgentAbsorberComponent α) (id id' : Nat)
    (potency : α) (h : id' ≠ id) :
    UnorderedMap.find? id' (c.addAbsorbed id potency).m_absorbedAgents =
      UnorderedMap.find? id' c.m_absorbedAgents := by
  unfold AgentAbsorberComponent.addAbsorbed
  have h' : ¬ id = id' := fun e => h e.symm
  cases hf : UnorderedMap.find? id c.m_absorbedAgents with
  | none =>
    simp only [UnorderedMap.find?_append, UnorderedMap.find?, h', if_false]
    cases UnorderedMap.find? id' c.m_absorbedAgents <;> rfl
  | some v => simp [UnorderedMap.find?_modify, h]

/-- Each ledger entry after the manifold loop is what it was before with the
potencies credited to its absorber under its type added in processing order. -/
theorem ledger_foldl_credits [Zero α] [Add α] (b A : Nat) (l : List (Nat × Nat))
    (w : AbsorberWorld α) (absorber : AgentAbsorberComponent α)
    (hb : UnorderedMap.find? b w.m_absorbers = some absorber) :
    ∃ absorber', UnorderedMap.find? b (l.foldl processManifold w).m_absorbers = some absorber' ∧
      UnorderedMap.find? A absorber'.m_absorbedAgents =
        (((credits w l).filter fun made => decide (made.1 = b ∧ made.2.2.1 = A)).map
          fun made => made.2.2.2).foldl (fun o p => some (o.getD 0 + p))
          (UnorderedMap.find? A absorber.m_absorbedAgents) := by
  induction l generalizing w absorber with
  | nil => exact ⟨absorber, hb, rfl⟩
  | cons c rest ih =>
    rcases credit_cases w c with ⟨hnone, hw⟩ | ⟨ae, be, agent, absorber₀, _, hab, _, hsome, hw⟩
    · simp only [List.foldl_cons, credits, hnone, hw]
      exact ih w absorber hb
    · simp only [List.foldl_cons, credits, hsome]
      by_cases hbe : b = be
      · subst hbe
        rw [hb] at hab
        simp only [Option.some.injEq] at hab
        subst hab
        have hb1 : UnorderedMap.find? b (processManifold w c).m_absorbers =
            some (absorber.addAbsorbed agent.m_agentId agent.m_potency) := by
          rw [hw]
          simp [UnorderedMap.find?_modify, hb]
        obtain ⟨absorber', h1, h2⟩ := ih (processManifold w c) _ hb1
        refine ⟨absorber', h1, ?_⟩
        rw [h2]
        by_cases hA : agent.m_agentId = A
        · subst hA
          simp [List.filter_cons, find?_addAbsorbed]
        · have hA' : A ≠ agent.m_agentId := fun e => hA e.symm
          simp [List.filter_cons, hA, find?_addAbsorbed_ne _ _ _ _ hA']
      · have hb1 : UnorderedMap.find? b (processManifold w c).m_absorbers = some absorber := by
          rw [hw]
          simp [UnorderedMap.find?_modify, hbe, hb]
        obtain ⟨absorber', h1, h2⟩ := ih (processManifold w c) _ hb1
        refine ⟨absorber', h1, ?_⟩
        rw [h2]
        have hbe' : ¬ be = b := fun e => hbe e.symm
        simp [List.filter_cons, hbe']

/-- Setting a live agent to 0 adds it to the agents that went from a positive
`m_timeToLive` to 0. -/
theorem consumed_list_modify (before m : List (Nat × AgentComponent α)) (x : Nat)
    (agent : AgentComponent α)
    (hrel : List.Forall₂ (fun b a : Nat × AgentComponent α => a.1 = b.1 ∧
      (a.2 = b.2 ∨ (b.2.m_timeToLive > 0 ∧ a.2 = { b.2 with m_timeToLive := 0 }))) before m)
    (hfind : UnorderedMap.find? x m = some agent) (hlive : agent.m_timeToLive > 0) :
    List.Perm
      (((before.zip (UnorderedMap.modify x (fun a => { a with m_timeToLive := 0 }) m)).filter
        fun p => decide (p.1.2.m_timeToLive > 0 ∧ p.2.2.m_timeToLive = 0)).map
        fun p => (p.1.1, p.1.2.m_agentId, p.1.2.m_potency))
      ((x, agent.m_agentId, agent.m_potency) ::
        ((before.zip m).filter
          fun p => decide (p.1.2.m_timeToLive > 0 ∧ p.2.2.m_timeToLive = 0)).map
          fun p => (p.1.1, p.1.2.m_agentId, p.1.2.m_potency)) := by
  induction hrel with
  | nil => simp [UnorderedMap.find?] at hfind
  | @cons b a bs as hba _ ih =>
    obtain ⟨ka, va⟩ := a
    by_cases hk : ka = x
    · subst hk
      simp only [UnorderedMap.find?, if_true, Option.some.injEq] at hfind
      subst hfind
      have hva : va = b.2 := by
        rcases hba.2 with h | ⟨_, h⟩
        · exact h
        · simp only at h
          rw [h] at hlive
          simp at hlive
      have hkey : ka = b.1 := hba.1
      subst hva
      have hnot : ¬ b.2.m_timeToLive = 0 := by omega
      simp only [UnorderedMap.modify, if_true, List.zip_cons_cons, List.filter_cons, hlive,
        hnot, and_false, and_true, decide_True, decide_False, if_true, List.map_cons,
        Bool.false_eq_true, if_false, hkey]
      exact List.Perm.refl _
    · simp only [UnorderedMap.find?, hk, if_false] at hfind
      simp only [UnorderedMap.modify, hk, if_false, List.zip_cons_cons, List.filter_cons]
      by_cases hc : b.2.m_timeToLive > 0 ∧ va.m_timeToLive = 0
      · simp only [hc, and_self, decide_True, if_true, List.map_cons]
        exact ((ih hfind).cons _).trans (List.Perm.swap _ _ _)
      · simp only [hc, decide_False, Bool.false_eq_true, if_false]
        exact ih hfind

/-- The agents that went from a positive `m_timeToLive` to 0 during the
manifold loop are, up to their order, the agents of the credits made. -/
theorem credits_perm_foldl [Zero α] [Add α] (before : List (Nat × AgentComponent α))
    (l : List (Nat × Nat)) (w : AbsorberWorld α)
    (hrel : List.Forall₂ (fun b a : Nat × AgentComponent α => a.1 = b.1 ∧
      (a.2 = b.2 ∨ (b.2.m_timeToLive > 0 ∧ a.2 = { b.2 with m_timeToLive := 0 })))
      before w.m_agents) :
    List.Perm
      ((((before.zip w.m_agents).filter
          fun p => decide (p.1.2.m_timeToLive > 0 ∧ p.2.2.m_timeToLive = 0)).map
          fun p => (p.1.1, p.1.2.m_agentId, p.1.2.m_potency)) ++
        (credits w l).map fun made => made.2)
      (((before.zip (l.foldl processManifold w).m_agents).filter
          fun p => decide (p.1.2.m_timeToLive > 0 ∧ p.2.2.m_timeToLive = 0)).map
          fun p => (p.1.1, p.1.2.m_agentId, p.1.2.m_potency)) := by
  induction l generalizing w with
  | nil => simp [credits]
  | cons c rest ih =>
    rcases credit_cases w c with ⟨hnone, hw⟩ | ⟨ae, be, agent, absorber, hag, _, hlive, hsome, hw⟩
    · simp only [List.foldl_cons, credits, hnone, hw]
      exact ih w hrel
    · simp only [List.foldl_cons, credits, hsome, List.map_cons]
      have hrel1 : List.Forall₂ (fun b a : Nat × AgentComponent α => a.1 = b.1 ∧
          (a.2 = b.2 ∨ (b.2.m_timeToLive > 0 ∧ a.2 = { b.2 with m_timeToLive := 0 })))
          before (processManifold w c).m_agents := by
        rw [hw]
        exact rel_modify_agents before w.m_agents ae agent hrel hag hlive
      have hstep := consumed_list_modify before w.m_agents ae agent hrel hag hlive
      have hih := ih (processManifold w c) hrel1
      rw [hw] at hih
      rw [hw]
      refine List.Perm.trans ?_ hih
      refine List.Perm.trans List.perm_middle ?_
      exact List.Perm.append_right _ hstep.symm

end AgentAbsorberSystem

namespace AgentAbsorberSystem

variable {α : Type}

/-- An absorber found after the manifold loop was in the filter before it. -/
theorem find?_absorbers_foldl [Zero α] [Add α] (l : List (Nat × Nat)) (w : AbsorberWorld α)
    (x : Nat) (absorber' : AgentAbsorberComponent α)
    (h : UnorderedMap.find? x (l.foldl processManifold w).m_absorbers = some absorber') :
    ∃ absorber, UnorderedMap.find? x w.m_absorbers = some absorber := by
  induction l generalizing w with
  | nil => exact ⟨absorber', h⟩
  | cons c rest ih =>
    obtain ⟨absorber₁, h₁⟩ := ih (processManifold w c) h
    obtain ⟨absorber, h₀, _⟩ := find?_absorbers_processManifold w c x absorber₁ h₁
    exact ⟨absorber, h₀⟩

/-- C21, as amended: for every world and every manifold list, with any scalar
arithmetic, `AgentAbsorberSystem::update` keeps the agent entities and their
order, keeps every agent's `m_agentId`, `m_potency` and `m_velocity`, and
leaves each `m_timeToLive` as it was unless it was positive and is now 0.  The
body of the manifold loop does what its credit says and nothing else; the
agents whose `m_timeToLive` was positive before the pass and is 0 after it
are, each once and with their own type and potency, exactly the agents of the
credits made during the pass; the types recorded in a ledger are pairwise
distinct, and every ledger amount is the sum, added in processing order
starting from 0, of the potencies credited to that absorber under that type.
When the addition of the scalars is commutative and associative with neutral
0, the sum of all amounts of all ledgers therefore equals the sum of the
potencies of exactly those agents. -/
theorem update_credits_consumed_potencies :
    (∀ (α : Type) [Zero α] [Add α] (w : AbsorberWorld α) (manifolds : List (Nat × Nat)),
      List.Forall₂ (fun before after : Nat × AgentComponent α =>
          after.1 = before.1 ∧ after.2.m_agentId = before.2.m_agentId ∧
          after.2.m_potency = before.2.m_potency ∧
          after.2.m_velocity = before.2.m_velocity ∧
          (after.2.m_timeToLive = before.2.m_timeToLive ∨
            (before.2.m_timeToLive > 0 ∧ after.2.m_timeToLive = 0)))
        w.m_agents (update w manifolds).m_agents ∧
      (∀ (s : AbsorberWorld α) (c : Nat × Nat),
        processManifold s c =
          match credit s c with
          | none => s
          | some (absorberEntity, agentEntity, agentId, potency) =>
            { m_absorbers := UnorderedMap.modify absorberEntity
                (fun a => a.addAbsorbed agentId potency) s.m_absorbers
              m_agents := UnorderedMap.modify agentEntity
                (fun a => { a with m_timeToLive := 0 }) s.m_agents }) ∧
      List.Perm
        ((credits { w with m_absorbers := clearAbsorbed w.m_absorbers } manifolds).map
          fun made => made.2)
        (((w.m_agents.zip (update w manifolds).m_agents).filter
          fun p => decide (p.1.2.m_timeToLive > 0 ∧ p.2.2.m_timeToLive = 0)).map
          fun p => (p.1.1, p.1.2.m_agentId, p.1.2.m_potency)) ∧
      (∀ entry ∈ (update w manifolds).m_absorbers,
        (entry.2.m_absorbedAgents.map Prod.fst).Nodup) ∧
      (∀ (b : Nat) (absorber' : AgentAbsorberComponent α),
        UnorderedMap.find? b (update w manifolds).m_absorbers = some absorber' →
        ∀ A, absorber'.absorbedAgentAmount A =
          (((credits { w with m_absorbers := clearAbsorbed w.m_absorbers } manifolds).filter
            fun made => decide (made.1 = b ∧ made.2.2.1 = A)).map
            fun made => made.2.2.2).foldl (fun x y => x + y) 0)) ∧
    (∀ (α : Type) [AddCommMonoid α] (w : AbsorberWorld α) (manifolds : List (Nat × Nat)),
      ((update w manifolds).m_absorbers.map
          fun entry => (entry.2.m_absorbedAgents.map Prod.snd).sum).sum =
        (((w.m_agents.zip (update w manifolds).m_agents).filter
          fun p => decide (p.1.2.m_timeToLive > 0 ∧ p.2.2.m_timeToLive = 0)).map
          fun p => p.1.2.m_potency).sum) := by
  have hrefl : ∀ (α : Type) (agents : List (Nat × AgentComponent α)),
      List.Forall₂ (fun b a : Nat × AgentComponent α => a.1 = b.1 ∧
        (a.2 = b.2 ∨ (b.2.m_timeToLive > 0 ∧ a.2 = { b.2 with m_timeToLive := 0 })))
        agents agents := by
    intro α agents
    induction agents with
    | nil => exact List.Forall₂.nil
    | cons a rest ih => exact List.Forall₂.cons ⟨rfl, Or.inl rfl⟩ ih
  have hself : ∀ (α : Type) (agents : List (Nat × AgentComponent α)),
      ((agents.zip agents).filter
        fun p => decide (p.1.2.m_timeToLive > 0 ∧ p.2.2.m_timeToLive = 0)) = [] := by
    intro α agents
    induction agents with
    | nil => rfl
    | cons a rest ih =>
      have hnot : ¬ (a.2.m_timeToLive > 0 ∧ a.2.m_timeToLive = 0) := by omega
      simp only [List.zip_cons_cons, List.filter_cons, hnot, decide_False, Bool.false_eq_true,
        if_false, ih]
  constructor
  · intro α _ _ w manifolds
    refine ⟨?_, ?_, ?_, ?_, ?_⟩
    · have hrel := rel_foldl_processManifold w.m_agents manifolds
        { w with m_absorbers := clearAbsorbed w.m_absorbers } (hrefl α w.m_agents)
      refine List.Forall₂.imp ?_ hrel
      rintro b a ⟨h1, h2⟩
      rcases h2 with h | ⟨hpos, h⟩
      · rw [h]
        exact ⟨h1, rfl, rfl, rfl, Or.inl rfl⟩
      · rw [h]
        exact ⟨h1, rfl, rfl, rfl, Or.inr ⟨hpos, rfl⟩⟩
    · intro s c
      rcases credit_cases s c with ⟨hnone, hs⟩ | ⟨ae, be, agent, absorber, _, _, _, hsome, hs⟩
      · rw [hnone, hs]
      · rw [hsome, hs]
    · have hperm := credits_perm_foldl w.m_agents manifolds
        { w with m_absorbers := clearAbsorbed w.m_absorbers } (hrefl α w.m_agents)
      simp only [hself, List.map_nil, List.nil_append] at hperm
      exact hperm
    · apply nodup_foldl
      intro entry hentry
      simp only [clearAbsorbed, List.mem_map] at hentry
      obtain ⟨x, _, rfl⟩ := hentry
      exact List.nodup_nil
    · intro b absorber' hfind A
      obtain ⟨absorber₀, h₀⟩ := find?_absorbers_foldl manifolds
        { w with m_absorbers := clearAbsorbed w.m_absorbers } b absorber' hfind
      have hcleared : UnorderedMap.find? A absorber₀.m_absorbedAgents = none := by
        simp only [find?_clearAbsorbed] at h₀
        cases hw : UnorderedMap.find? b w.m_absorbers with
        | none => simp [hw] at h₀
        | some x =>
          rw [hw] at h₀
          simp only [Option.map_some', Option.some.injEq] at h₀
          rw [← h₀]
          rfl
      obtain ⟨absorber'', h1, h2⟩ := ledger_foldl_credits b A manifolds
        { w with m_absorbers := clearAbsorbed w.m_absorbers } absorber₀ h₀
      have hsame : absorber'' = absorber' := by
        have := h1.symm.trans hfind
        exact Option.some.inj this
      subst hsame
      rw [hcleared] at h2
      have hget := foldl_credit_getD
        (((credits { w with m_absorbers := clearAbsorbed w.m_absorbers } manifolds).filter
          fun made => decide (made.1 = b ∧ made.2.2.1 = A)).map fun made => made.2.2.2)
        (none : Option α)
      rw [← h2] at hget
      rw [Option.getD_none] at hget
      rw [← hget]
      unfold AgentAbsorberComponent.absorbedAgentAmount
      cases UnorderedMap.find? A absorber''.m_absorbedAgents <;> rfl
  · intro α _ w manifolds
    apply conservation_foldl w.m_agents manifolds
      { w with m_absorbers := clearAbsorbed w.m_absorbers } (hrefl α w.m_agents)
    rw [consumed_sum_self]
    exact ledger_sum_clearAbsorbed w.m_absorbers

/-- In the sample world, with integer scalars, the absorber 1 ends with 12 of
type 3, the potencies 5 and 7 of its two credits added to 0 in this order, and
the ledgers add up to the sum of the potencies of the agents that went to 0. -/
theorem update_credits_consumed_potencies_witness :
    (⟨[(3, 12)], [3]⟩ : AgentAbsorberComponent Int).absorbedAgentAmount 3 =
      (((credits { sampleWorld with m_absorbers := clearAbsorbed sampleWorld.m_absorbers }
          [(10, 1), (1, 11), (10, 1)]).filter
        fun made => decide (made.1 = 1 ∧ made.2.2.1 = 3)).map
        fun made => made.2.2.2).foldl (fun x y => x + y) 0 ∧
    ((update sampleWorld [(10, 1), (1, 11), (10, 1)]).m_absorbers.map
        fun entry => (entry.2.m_absorbedAgents.map Prod.snd).sum).sum =
      (((sampleWorld.m_agents.zip (update sampleWorld [(10, 1), (1, 11), (10, 1)]).m_agents).filter
        fun p => decide (p.1.2.m_timeToLive > 0 ∧ p.2.2.m_timeToLive = 0)).map
        fun p => p.1.2.m_potency).sum :=
  ⟨(update_credits_consumed_potencies.1 Int sampleWorld [(10, 1), (1, 11), (10, 1)]).2.2.2.2 1
      ⟨[(3, 12)], [3]⟩ (by decide) 3,
   update_credits_consumed_potencies.2 Int sampleWorld [(10, 1), (1, 11), (10, 1)]⟩

/-- C21, as stated, fails in the arithmetic of `float`: in the world with
binary32 scalars three agents with potencies `2 ^ 24`, 1 and 1 are absorbed by
one absorber, all three go from a positive `m_timeToLive` to 0, and the ledger
ends at `2 ^ 24`, each added 1 being rounded away, while the potencies of the
three agents add up to `2 ^ 24 + 2`, which is a binary32 number. -/
theorem update_ledger_total_rounds :
    ((update roundingWorld [(10, 1), (11, 1), (12, 1)]).m_absorbers.map
        fun entry => (entry.2.m_absorbedAgents.map Prod.snd).sum).sum =
      (⟨16777216⟩ : Binary32) ∧
    (((roundingWorld.m_agents.zip
        (update roundingWorld [(10, 1), (11, 1), (12, 1)]).m_agents).filter
        fun p => decide (p.1.2.m_timeToLive > 0 ∧ p.2.2.m_timeToLive = 0)).map
        fun p => p.1.2.m_potency) = [⟨16777216⟩, ⟨1⟩, ⟨1⟩] ∧
    ([⟨16777216⟩, ⟨1⟩, ⟨1⟩] : List Binary32).sum = ⟨16777218⟩ ∧
    (([⟨16777216⟩, ⟨1⟩, ⟨1⟩] : List Binary32).map Binary32.val).sum = 16777218 ∧
    ((update roundingWorld [(10, 1), (11, 1), (12, 1)]).m_absorbers.map
        fun entry => (entry.2.m_absorbedAgents.map Prod.snd).sum).sum ≠
      (((roundingWorld.m_agents.zip
        (update roundingWorld [(10, 1), (11, 1), (12, 1)]).m_agents).filter
        fun p => decide (p.1.2.m_timeToLive > 0 ∧ p.2.2.m_timeToLive = 0)).map
        fun p => p.1.2.m_potency).sum := by
  decide

end AgentAbsorberSystem

end Thrive
